import Mathlib

/-!
Shallow embedding of `swagger_test_case_generator` (parser.py, models.py,
utils.py, generator.py) and proofs about the frozen claims.

Python values that flow through the program (parsed JSON / YAML data,
candidate records) are modelled by the inductive type `J` below.  A Python
`dict` is modelled as an association list with distinct keys kept in
insertion order; `dict` subscript assignment replaces a value in place.
Python exceptions are modelled with `Option`/`Except`: `none` (resp.
`.error`) marks a raised exception, never a normal return.
-/

set_option autoImplicit false

namespace Swagger

/-- A Python value produced by `json.loads` / `yaml.safe_load` and passed
around the generator: `None`, booleans, numbers (kept as their source
lexeme: no claim computes with numerals), strings, lists and dicts. -/
inductive J where
  | null : J
  | jbool : Bool → J
  | jnum : String → J
  | jstr : String → J
  | jarr : List J → J
  | jobj : List (String × J) → J

/-- Python truthiness of a number literal: `0`, `0.0`, `-0e7`, … are falsy.
A JSON numeral is zero exactly when it has no digit in 1..9. -/
def numTruthy (s : String) : Bool :=
  s.data.any fun c => ('1' ≤ c && c ≤ '9')

/-- Python truthiness (`if value:`) of a `J` value. -/
def truthyJ : J → Bool
  | J.null => false
  | J.jbool b => b
  | J.jnum s => numTruthy s
  | J.jstr s => s ≠ ""
  | J.jarr xs => !xs.isEmpty
  | J.jobj kvs => !kvs.isEmpty

/-- `key in d` / `d[key]` on a dict: first (unique) matching entry. -/
def lookupKV : List (String × J) → String → Option J
  | [], _ => none
  | (k, v) :: rest, key => if k = key then some v else lookupKV rest key

/-- `d.get(key, default)`. -/
def pyGetKV (kvs : List (String × J)) (key : String) (dflt : J) : J :=
  match lookupKV kvs key with
  | some v => v
  | none => dflt

/-- `d.get(key, default)` where the receiver is a `J` (call sites guarantee
it is a dict). -/
def pyGetJ (d : J) (key : String) (dflt : J) : J :=
  match d with
  | J.jobj kvs => pyGetKV kvs key dflt
  | _ => dflt

/-- `d[key] = v`: replace in place when the key exists, append otherwise
(CPython dict update keeps the original key position). -/
def setKV : List (String × J) → String → J → List (String × J)
  | [], key, v => [(key, v)]
  | (k, w) :: rest, key, v =>
    if k = key then (k, v) :: rest else (k, w) :: setKV rest key v

/-- `d[key] = v` on a `J` dict (call sites guarantee a dict). -/
def pySetJ (d : J) (key : String) (v : J) : J :=
  match d with
  | J.jobj kvs => J.jobj (setKV kvs key v)
  | other => other

def isObjJ : J → Bool
  | J.jobj _ => true
  | _ => false

/-- `set.add(x)` on a set modelled as a duplicate-free list. -/
def pySetAdd (s : List String) (x : String) : List String :=
  if x ∈ s then s else s ++ [x]

/-- Python whitespace (`str.strip`, `\s`): space, tab, LF, CR, VT, FF. -/
def isPyWs (c : Char) : Bool :=
  c = ' ' || c = '\t' || c = '\n' || c = '\r' || c = Char.ofNat 11 || c = Char.ofNat 12

/-- `s.rstrip()` on a character list. -/
def pyRstrip (cs : List Char) : List Char :=
  ((cs.reverse.dropWhile isPyWs).reverse)

/-- `s.strip()` on a string. -/
def pyStrip (s : String) : String :=
  String.mk ((s.data.dropWhile isPyWs).reverse.dropWhile isPyWs).reverse

/-- `s[:n]` (slicing by code points). -/
def pyTake (s : String) (n : Nat) : String :=
  String.mk (s.data.take n)

/-- `s.upper()` (ASCII; all inputs in the claims are ASCII). -/
def pyUpper (s : String) : String :=
  String.mk (s.data.map Char.toUpper)

/-- `str(value)` for values reachable here.  Scalars are rendered exactly;
for containers only truthiness/nonemptiness of the result is ever
observed downstream, so their rendering is abbreviated. -/
def pyStrJ : J → String
  | J.null => "None"
  | J.jbool true => "True"
  | J.jbool false => "False"
  | J.jnum s => s
  | J.jstr s => s
  | J.jarr _ => "[...]"
  | J.jobj _ => "\x7b...\x7d"

/-- The characters used in scanner code, named to keep literals tidy. -/
def lbrace : Char := Char.ofNat 123
def rbrace : Char := Char.ofNat 125
def lbrack : Char := '['
def rbrack : Char := ']'
def dquote : Char := Char.ofNat 34
def bslash : Char := '\\'
def btick  : Char := Char.ofNat 96

/-- `s.find(c)`: index of the first occurrence. -/
def strFind : List Char → Char → Option Nat
  | [], _ => none
  | c :: rest, t =>
    if c = t then some 0
    else match strFind rest t with
      | some i => some (i + 1)
      | none => none

/-- `s.rfind(c)`: index of the last occurrence. -/
def strRFind (cs : List Char) (t : Char) : Option Nat :=
  match strFind cs.reverse t with
  | some i => some (cs.length - 1 - i)
  | none => none

/-- `s.startswith(pre)`. -/
def pyStartsWith (s : String) (pre : List Char) : Bool :=
  pre.isPrefixOf s.data

/-- `s.split('/')` on a character list (Python semantics: `"".split('/')`
is `[""]`, separators at the ends produce empty fields). -/
def splitSlash : List Char → List (List Char)
  | [] => [[]]
  | c :: r =>
    let rest := splitSlash r
    if c = '/' then [] :: rest
    else
      match rest with
      | h :: t => (c :: h) :: t
      | [] => [[c]]

end Swagger

namespace Swagger

/-! ### A model of `json.loads` (strict mode, as used by the generator)

Fuel-indexed recursive-descent parser over `List Char`.  Fuel decreases at
every self call, so the definition is structurally recursive and closed
terms evaluate by `rfl`/`decide`; `2 * length + 8` fuel is always enough
for inputs the claims evaluate.  Strings reject unescaped control
characters (strict mode); `\uXXXX` escapes map through `Char.ofNat`
(lone-surrogate inputs never occur in the claims).  Numbers keep their
source lexeme. -/

def isJsonWs (c : Char) : Bool :=
  c = ' ' || c = '\t' || c = '\n' || c = '\r'

def skipWs : List Char → List Char
  | [] => []
  | c :: r => if isJsonWs c then skipWs r else c :: r

def hexVal (c : Char) : Option Nat :=
  if c.isDigit then some (c.toNat - 48)
  else if 'a' ≤ c && c ≤ 'f' then some (c.toNat - 87)
  else if 'A' ≤ c && c ≤ 'F' then some (c.toNat - 55)
  else none

def parseHex4 : List Char → Option (Nat × List Char)
  | a :: b :: c :: d :: rest =>
    match hexVal a, hexVal b, hexVal c, hexVal d with
    | some x, some y, some z, some w => some (((x * 16 + y) * 16 + z) * 16 + w, rest)
    | _, _, _, _ => none
  | _ => none

/-- Body of a JSON string after the opening quote; returns the decoded
characters and the input after the closing quote. -/
def parseStrBody : Nat → List Char → Option (List Char × List Char)
  | 0, _ => none
  | _ + 1, [] => none
  | n + 1, c :: r =>
    if c = dquote then some ([], r)
    else if c = bslash then
      match r with
      | [] => none
      | e :: r2 =>
        let cont (ch : Char) (rest : List Char) : Option (List Char × List Char) :=
          (parseStrBody n rest).map fun p => (ch :: p.1, p.2)
        if e = dquote then cont dquote r2
        else if e = bslash then cont bslash r2
        else if e = '/' then cont '/' r2
        else if e = 'b' then cont (Char.ofNat 8) r2
        else if e = 'f' then cont (Char.ofNat 12) r2
        else if e = 'n' then cont '\n' r2
        else if e = 'r' then cont '\r' r2
        else if e = 't' then cont '\t' r2
        else if e = 'u' then
          match parseHex4 r2 with
          | some (code, r3) => (parseStrBody n r3).map fun p => (Char.ofNat code :: p.1, p.2)
          | none => none
        else none
    else if c.toNat < 32 then none
    else (parseStrBody n r).map fun p => (c :: p.1, p.2)

def spanDigits : List Char → (List Char × List Char)
  | [] => ([], [])
  | c :: r =>
    if c.isDigit then
      let p := spanDigits r
      (c :: p.1, p.2)
    else ([], c :: r)

def parseIntPart : List Char → Option (List Char × List Char)
  | [] => none
  | c :: r =>
    if c = '0' then some (['0'], r)
    else if '1' ≤ c && c ≤ '9' then
      let p := spanDigits r
      some (c :: p.1, p.2)
    else none

def parseFracPart : List Char → (List Char × List Char)
  | c :: r =>
    if c = '.' then
      match spanDigits r with
      | ([], _) => ([], c :: r)
      | (d, rest) => (c :: d, rest)
    else ([], c :: r)
  | [] => ([], [])

def parseExpPart : List Char → (List Char × List Char)
  | c :: r =>
    if c = 'e' || c = 'E' then
      let sgn : List Char × List Char :=
        match r with
        | s :: r2 => if s = '+' || s = '-' then ([s], r2) else ([], s :: r2)
        | [] => ([], [])
      match spanDigits sgn.2 with
      | ([], _) => ([], c :: r)
      | (d, rest) => (c :: (sgn.1 ++ d), rest)
    else ([], c :: r)
  | [] => ([], [])

/-- The `NUMBER_RE` regex of the json module: lexeme and remaining input. -/
def parseNumber (cs : List Char) : Option (List Char × List Char) :=
  let neg : List Char × List Char :=
    match cs with
    | c :: r => if c = '-' then (['-'], r) else ([], cs)
    | [] => ([], [])
  match parseIntPart neg.2 with
  | some (ip, cs2) =>
    let fp := parseFracPart cs2
    let ep := parseExpPart fp.2
    some (neg.1 ++ ip ++ fp.1 ++ ep.1, ep.2)
  | none => none

def litTable : List (List Char × J) :=
  [("true".data, J.jbool true), ("false".data, J.jbool false),
   ("null".data, J.null), ("NaN".data, J.jnum "NaN"),
   ("Infinity".data, J.jnum "Infinity"), ("-Infinity".data, J.jnum "-Infinity")]

def tryLits : List (List Char × J) → List Char → Option (J × List Char)
  | [], _ => none
  | (lit, v) :: rest, cs =>
    if lit.isPrefixOf cs then some (v, cs.drop lit.length) else tryLits rest cs

/-- `dict(pairs)`: later duplicate keys overwrite in place. -/
def dictOf (l : List (String × J)) : List (String × J) :=
  l.foldl (fun acc p => setKV acc p.1 p.2) []

inductive PTask where
  | pval : PTask
  | pmembers : PTask
  | pitems : PTask

/-- The recursive core of `json.loads`: one JSON value (`pval`), the
members of an object after a `{` known not to close immediately
(`pmembers`, result wrapped as `J.jobj`), or the items of an array
(`pitems`, wrapped as `J.jarr`). -/
def parseJ : Nat → PTask → List Char → Option (J × List Char)
  | 0, _, _ => none
  | n + 1, PTask.pval, cs =>
    match skipWs cs with
    | [] => none
    | c :: r =>
      if c = dquote then
        (parseStrBody (r.length + 1) r).map fun p => (J.jstr (String.mk p.1), p.2)
      else if c = lbrace then
        match skipWs r with
        | c2 :: r2 =>
          if c2 = rbrace then some (J.jobj [], r2)
          else
            match parseJ n PTask.pmembers (c2 :: r2) with
            | some (J.jobj kvs, rest) => some (J.jobj (dictOf kvs), rest)
            | _ => none
        | [] => none
      else if c = lbrack then
        match skipWs r with
        | c2 :: r2 =>
          if c2 = rbrack then some (J.jarr [], r2)
          else
            match parseJ n PTask.pitems (c2 :: r2) with
            | some (J.jarr xs, rest) => some (J.jarr xs, rest)
            | _ => none
        | [] => none
      else
        match parseNumber (c :: r) with
        | some (lex, rest) => some (J.jnum (String.mk lex), rest)
        | none => tryLits litTable (c :: r)
  | n + 1, PTask.pmembers, cs =>
    match skipWs cs with
    | [] => none
    | c :: r =>
      if c = dquote then
        match parseStrBody (r.length + 1) r with
        | some (keycs, r2) =>
          match skipWs r2 with
          | c3 :: r3 =>
            if c3 = ':' then
              match parseJ n PTask.pval r3 with
              | some (v, r4) =>
                match skipWs r4 with
                | c5 :: r5 =>
                  if c5 = ',' then
                    match parseJ n PTask.pmembers r5 with
                    | some (J.jobj restKvs, r6) =>
                      some (J.jobj ((String.mk keycs, v) :: restKvs), r6)
                    | _ => none
                  else if c5 = rbrace then some (J.jobj [(String.mk keycs, v)], r5)
                  else none
                | [] => none
              | none => none
            else none
          | [] => none
        | none => none
      else none
  | n + 1, PTask.pitems, cs =>
    match parseJ n PTask.pval cs with
    | some (v, r) =>
      match skipWs r with
      | c :: r2 =>
        if c = ',' then
          match parseJ n PTask.pitems r2 with
          | some (J.jarr xs, r3) => some (J.jarr (v :: xs), r3)
          | _ => none
        else if c = rbrack then some (J.jarr [v], r2)
        else none
      | [] => none
    | none => none

/-- `json.loads` on a character list: a single value with only trailing
whitespace allowed. -/
def jsonLoadsL (cs : List Char) : Option J :=
  match parseJ (2 * cs.length + 8) PTask.pval cs with
  | some (v, rest) => if (skipWs rest).isEmpty then some v else none
  | none => none

/-- `json.loads` on a string. -/
def jsonLoads (s : String) : Option J :=
  jsonLoadsL s.data

end Swagger

namespace Swagger

/-! ### parser.py — `SwaggerParser.resolve_ref` / `resolve_refs_recursive`

`self.spec_version` is the `SpecVersion` parameter; `self.spec` the `spec`
parameter.  `Option` is fuel exhaustion (the Python function has no fuel:
sufficient fuel always exists, see the termination lemmas), the inner
`Except Unit` a raised Python exception (`IndexError` on a short pointer,
`AttributeError`/`TypeError` on non-dict receivers or non-string `$ref`
values). -/

inductive SpecVersion where
  | openapi3 : SpecVersion
  | swagger2 : SpecVersion

def emptyObj : J := J.jobj []

/-- The sentinel substituted when a circular reference is detected. -/
def circular_sentinel (p : String) : J :=
  J.jobj [("$ref", J.jstr p), ("_resolved", J.jstr "circular_reference")]

/-- `d.get(key, {})` where `d` may not be a dict: `AttributeError` then. -/
def pyGetA (d : J) (key : String) : Option J :=
  match d with
  | J.jobj kvs => some (pyGetKV kvs key emptyObj)
  | _ => none

/-- The generic fallback traversal at the end of `resolve_ref`. -/
def genericTraverse : List String → J → J
  | [], resolved => if isObjJ resolved then resolved else emptyObj
  | part :: rest, resolved =>
    match resolved with
    | J.jobj kvs => genericTraverse rest (pyGetKV kvs part emptyObj)
    | _ => emptyObj

/-- `SwaggerParser.resolve_ref`. `none` models a raised exception. -/
def resolve_ref (sv : SpecVersion) (spec : J) (ref_path : String) : Option J :=
  if ¬ pyStartsWith ref_path ['#', '/'] then some emptyObj
  else
    let path_parts := (splitSlash (ref_path.data.drop 2)).map String.mk
    match sv with
    | SpecVersion.openapi3 =>
      match path_parts with
      | [] => some (genericTraverse path_parts spec)
      | p0 :: tail =>
        if p0 = "components" then
          match tail with
          | [] => none
          | p1 :: tail2 =>
            if p1 = "schemas" then
              match tail2 with
              | [] => none
              | name :: _ => do
                let c ← pyGetA spec "components"
                let s ← pyGetA c "schemas"
                pyGetA s name
            else some (genericTraverse path_parts spec)
        else some (genericTraverse path_parts spec)
    | SpecVersion.swagger2 =>
      match path_parts with
      | [] => some (genericTraverse path_parts spec)
      | p0 :: tail =>
        if p0 = "definitions" then
          match tail with
          | [] => none
          | name :: _ => do
            let d ← pyGetA spec "definitions"
            pyGetA d name
        else some (genericTraverse path_parts spec)

/-- Task type for the recursive walk: a node, the entries of a dict being
rebuilt (result wrapped as `J.jobj`), or the items of a list (wrapped as
`J.jarr`). -/
inductive RIn where
  | rnode : J → RIn
  | rentries : List (String × J) → RIn
  | ritems : List J → RIn

/-- `SwaggerParser.resolve_refs_recursive`.  The single mutable
`visited_refs` set is threaded through every recursive call (dict and list
comprehensions evaluate left to right sharing it); it is never pruned.
Fuel decreases at every self call so closed terms evaluate by `rfl`. -/
def resolve_refs_recursive (sv : SpecVersion) (spec : J) :
    Nat → RIn → List String → Option (Except Unit (J × List String))
  | 0, _, _ => none
  | n + 1, RIn.rnode obj, visited =>
    match obj with
    | J.jobj kvs =>
      match lookupKV kvs "$ref" with
      | some (J.jstr ref_path) =>
        if ref_path ∈ visited then
          some (Except.ok (circular_sentinel ref_path, visited))
        else
          let visited' := pySetAdd visited ref_path
          match resolve_ref sv spec ref_path with
          | none => some (Except.error ())
          | some resolved =>
            if truthyJ resolved then
              resolve_refs_recursive sv spec n (RIn.rnode resolved) visited'
            else
              some (Except.ok (J.jobj kvs, visited'))
      | some _ => some (Except.error ())
      | none => resolve_refs_recursive sv spec n (RIn.rentries kvs) visited
    | J.jarr xs => resolve_refs_recursive sv spec n (RIn.ritems xs) visited
    | leaf => some (Except.ok (leaf, visited))
  | _ + 1, RIn.rentries [], visited => some (Except.ok (J.jobj [], visited))
  | n + 1, RIn.rentries ((k, v) :: rest), visited =>
    match resolve_refs_recursive sv spec n (RIn.rnode v) visited with
    | none => none
    | some (Except.error e) => some (Except.error e)
    | some (Except.ok (v', visited')) =>
      match resolve_refs_recursive sv spec n (RIn.rentries rest) visited' with
      | none => none
      | some (Except.error e) => some (Except.error e)
      | some (Except.ok (J.jobj rest', visited'')) =>
        some (Except.ok (J.jobj ((k, v') :: rest'), visited''))
      | some (Except.ok _) => some (Except.error ())
  | _ + 1, RIn.ritems [], visited => some (Except.ok (J.jarr [], visited))
  | n + 1, RIn.ritems (x :: rest), visited =>
    match resolve_refs_recursive sv spec n (RIn.rnode x) visited with
    | none => none
    | some (Except.error e) => some (Except.error e)
    | some (Except.ok (x', visited')) =>
      match resolve_refs_recursive sv spec n (RIn.ritems rest) visited' with
      | none => none
      | some (Except.error e) => some (Except.error e)
      | some (Except.ok (J.jarr rest', visited'')) =>
        some (Except.ok (J.jarr (x' :: rest'), visited''))
      | some (Except.ok _) => some (Except.error ())

end Swagger

namespace Swagger

/-! ### Measures used to prove the resolver total (sufficient fuel exists) -/

mutual
/-- Structure size of a value (every node and list spine cell counts). -/
def sizeJ : J → Nat
  | J.null => 1
  | J.jbool _ => 1
  | J.jnum _ => 1
  | J.jstr _ => 1
  | J.jarr xs => 1 + sizeItems xs
  | J.jobj kvs => 1 + sizeEntries kvs

def sizeItems : List J → Nat
  | [] => 1
  | x :: r => 1 + sizeJ x + sizeItems r

def sizeEntries : List (String × J) → Nat
  | [] => 1
  | p :: r => 1 + sizeJ p.2 + sizeEntries r
end

mutual
/-- All `$ref` pointer strings occurring anywhere in a value. -/
def refsJ : J → Finset String
  | J.null => ∅
  | J.jbool _ => ∅
  | J.jnum _ => ∅
  | J.jstr _ => ∅
  | J.jarr xs => refsItems xs
  | J.jobj kvs => refsEntries kvs

def refsItems : List J → Finset String
  | [] => ∅
  | x :: r => refsJ x ∪ refsItems r

def refsEntries : List (String × J) → Finset String
  | [] => ∅
  | (k, v) :: r =>
    (if k = "$ref" then
      (match v with
       | J.jstr p => {p}
       | _ => ∅)
     else ∅) ∪ refsJ v ∪ refsEntries r
end

mutual
/-- No dict anywhere in the value carries a `$ref` key. -/
def noRefs : J → Bool
  | J.null => true
  | J.jbool _ => true
  | J.jnum _ => true
  | J.jstr _ => true
  | J.jarr xs => noRefsItems xs
  | J.jobj kvs => (lookupKV kvs "$ref").isNone && noRefsEntries kvs

def noRefsItems : List J → Bool
  | [] => true
  | x :: r => noRefs x && noRefsItems r

def noRefsEntries : List (String × J) → Bool
  | [] => true
  | p :: r => noRefs p.2 && noRefsEntries r
end

def sizeRIn : RIn → Nat
  | RIn.rnode j => sizeJ j
  | RIn.rentries l => sizeEntries l
  | RIn.ritems l => sizeItems l

def refsRIn : RIn → Finset String
  | RIn.rnode j => refsJ j
  | RIn.rentries l => refsEntries l
  | RIn.ritems l => refsItems l

end Swagger

namespace Swagger

/-! ### models.py — runtime `TestCase`, utils.py — `validate_test_case`

`TestCase.created_date` (a wall-clock timestamp never read by validation,
deduplication or the claims) is omitted.  `_normalize_enum`'s
`hasattr(value, 'value')` branch fires only on Pydantic enum instances;
in this embedding strict validation already emits the enum's value
string, which is what that branch returns. -/

structure TestCase where
  title : J
  description : J
  preconditions : J
  test_steps : List (J × J)
  test_type : String
  design_technique : String
  api_path : J
  http_method : String
  priority : String

/-- `TestCase._normalize_enum` on parsed values: `str(value) if value else
"Unknown"`. -/
def normalize_enum (v : J) : String :=
  if truthyJ v then pyStrJ v else "Unknown"

/-- `TestCase._normalize_test_steps`: keeps every dict step as the pair
(`step.get("action", "")`, `step.get("expected_result", "")`); a truthy
non-iterable (number, `True`) raises `TypeError` (`none`); iterating a
string or dict yields no dict elements. -/
def normalize_test_steps (steps : J) : Option (List (J × J)) :=
  if ¬ truthyJ steps then some []
  else
    match steps with
    | J.jarr items =>
      some (items.filterMap fun st =>
        match st with
        | J.jobj kvs =>
          some (pyGetKV kvs "action" (J.jstr ""), pyGetKV kvs "expected_result" (J.jstr ""))
        | _ => none)
    | J.jstr _ => some []
    | J.jobj _ => some []
    | _ => none

/-- `.upper()`: `AttributeError` unless the value is a string. -/
def pyUpperJ : J → Option String
  | J.jstr s => some (pyUpper s)
  | _ => none

/-- `TestCase.__init__` on a candidate dict. `none` models a raised
exception (truthy non-list `test_steps`, non-string `http_method`). -/
def mkTestCase (data : J) : Option TestCase := do
  let steps ← normalize_test_steps (pyGetJ data "test_steps" (J.jarr []))
  let hm ← pyUpperJ (pyGetJ data "http_method" (J.jstr ""))
  some
    { title := pyGetJ data "title" (J.jstr "Untitled Test Case")
      description := pyGetJ data "description" (J.jstr "")
      preconditions := pyGetJ data "preconditions" (J.jstr "")
      test_steps := steps
      test_type := normalize_enum (pyGetJ data "test_type" (J.jstr "Unknown"))
      design_technique := normalize_enum (pyGetJ data "design_technique" (J.jstr "Unknown"))
      api_path := pyGetJ data "api_path" (J.jstr "")
      http_method := hm
      priority := normalize_enum (pyGetJ data "priority" (J.jstr "Medium")) }

/-- utils.py `validate_test_case`: all five required fields truthy and at
least one step. -/
def validate_test_case (tc : TestCase) : Bool :=
  truthyJ tc.title && !tc.test_steps.isEmpty && tc.test_type ≠ "" &&
    truthyJ tc.api_path && tc.http_method ≠ "" && !tc.test_steps.isEmpty

/-- String content of a `J`, raising (`none`) otherwise — models slicing
`value[:100]` / joining values that must be `str`. -/
def asStr : J → Option String
  | J.jstr s => some s
  | _ => none

/-- `TestCase.get_unique_key`.  `none` models the `TypeError` raised when
slicing/joining a non-string title, api_path or first-step text. -/
def get_unique_key (tc : TestCase) : Option String := do
  let fsa ← match tc.test_steps with
    | [] => some ""
    | fs :: _ => (asStr fs.1).map (pyTake · 100)
  let fsr ← match tc.test_steps with
    | [] => some ""
    | fs :: _ => (asStr fs.2).map (pyTake · 100)
  let t ← asStr tc.title
  let ap ← asStr tc.api_path
  some (String.intercalate "|"
    [ap, tc.http_method, tc.test_type, tc.design_technique,
     pyStrip (pyTake t 100), pyStrip fsa, pyStrip fsr])

end Swagger

namespace Swagger

/-! ### generator.py — Pydantic strict validation and salvage -/

def testTypeValues : List String := ["Positive", "Negative"]

def techniqueValues : List String :=
  ["EP", "BVA", "Error Guessing", "Decision Table Testing",
   "Pairwise Testing", "State Transition Testing"]

def priorityValues : List String := ["High", "Medium", "Low"]

/-- A required Pydantic `str` field: present and a string. -/
def reqStr (kvs : List (String × J)) (key : String) : Option String :=
  match lookupKV kvs key with
  | some (J.jstr s) => some s
  | _ => none

/-- An optional Pydantic `str` field with a default: absent is fine, a
present non-string fails. -/
def optStr (kvs : List (String × J)) (key : String) (dflt : String) : Option String :=
  match lookupKV kvs key with
  | some (J.jstr s) => some s
  | some _ => none
  | none => some dflt

/-- `TestStepSchema`: required `action` and `expected_result` strings. -/
def validateStep (st : J) : Option J :=
  match st with
  | J.jobj kvs => do
    let a ← reqStr kvs "action"
    let e ← reqStr kvs "expected_result"
    some (J.jobj [("action", J.jstr a), ("expected_result", J.jstr e)])
  | _ => none

/-- `TestCaseSchema(**case)` followed by `.model_dump()` (Pydantic v2:
no number/bool→str coercion, enums matched by exact value, extra keys
ignored, `test_steps` a list of ≥ 1 valid steps).  Enum members are
rendered as their value strings, which is what every reader of the dump
(`TestCase._normalize_enum`) extracts from them. -/
def TestCaseSchemaValidate (case : J) : Option J :=
  match case with
  | J.jobj kvs => do
    let title ← reqStr kvs "title"
    let description ← optStr kvs "description" ""
    let preconditions ← optStr kvs "preconditions" ""
    let tt ← reqStr kvs "test_type"
    guard (tt ∈ testTypeValues)
    let dt ← reqStr kvs "design_technique"
    guard (dt ∈ techniqueValues)
    let ap ← reqStr kvs "api_path"
    let hm ← reqStr kvs "http_method"
    let pr ← optStr kvs "priority" "Medium"
    guard (pr ∈ priorityValues)
    let stepsRaw ← match lookupKV kvs "test_steps" with
      | some (J.jarr l) => some l
      | _ => none
    guard (¬ stepsRaw.isEmpty)
    let steps ← stepsRaw.mapM validateStep
    some (J.jobj
      [("title", J.jstr title), ("description", J.jstr description),
       ("preconditions", J.jstr preconditions), ("test_type", J.jstr tt),
       ("design_technique", J.jstr dt), ("api_path", J.jstr ap),
       ("http_method", J.jstr hm), ("priority", J.jstr pr),
       ("test_steps", J.jarr steps)])
  | _ => none

def test_case_keys : List String :=
  ["title", "test_steps", "test_type", "api_path", "http_method"]

/-- `_is_test_case_like`: at least 3 of the 5 marker keys present. -/
def is_test_case_like (kvs : List (String × J)) : Bool :=
  (test_case_keys.filter fun k => (lookupKV kvs k).isSome).length ≥ 3

/-- `_is_test_case_like` on an arbitrary value: `.keys()` raises
`AttributeError` (`none`) on a non-dict. -/
def is_test_case_likeJ : J → Option Bool
  | J.jobj kvs => some (is_test_case_like kvs)
  | _ => none

/-- `case.get(key)` is truthy (absent key gives `None`, which is falsy). -/
def pyTruthyGet (kvs : List (String × J)) (key : String) : Bool :=
  match lookupKV kvs key with
  | some v => truthyJ v
  | none => false

/-- The body of the step loop in `_salvage_case`: keep a dict step with a
truthy `action`, defaulting a missing `expected_result` to the
placeholder. -/
def salvage_step (st : J) : Option J :=
  match st with
  | J.jobj skvs =>
    if truthyJ (pyGetKV skvs "action" J.null) then
      some (J.jobj
        [("action", pyGetKV skvs "action" (J.jstr "")),
         ("expected_result", pyGetKV skvs "expected_result" (J.jstr "Verify the result"))])
    else none
  | _ => none

/-- `_salvage_case`. -/
def salvage_case (kvs : List (String × J)) : Option J :=
  if ¬ (pyTruthyGet kvs "title" && pyTruthyGet kvs "test_steps") then none
  else
    match pyGetKV kvs "test_steps" (J.jarr []) with
    | J.jarr steps =>
      if steps.isEmpty then none
      else
        let valid_steps := steps.filterMap salvage_step
        if valid_steps.isEmpty then none
        else some (J.jobj
          [("title", pyGetKV kvs "title" (J.jstr "Untitled")),
           ("description", pyGetKV kvs "description" (J.jstr "")),
           ("preconditions", pyGetKV kvs "preconditions" (J.jstr "")),
           ("test_type", pyGetKV kvs "test_type" (J.jstr "Unknown")),
           ("design_technique", pyGetKV kvs "design_technique" (J.jstr "Unknown")),
           ("api_path", pyGetKV kvs "api_path" (J.jstr "")),
           ("http_method", pyGetKV kvs "http_method" (J.jstr "")),
           ("priority", pyGetKV kvs "priority" (J.jstr "Medium")),
           ("test_steps", J.jarr valid_steps)])
    | _ => none

/-- `_validate_cases`: strict validation, salvage for test-case-like
failures, drop the rest; non-dict entries are skipped. -/
def validate_cases : List J → List J
  | [] => []
  | case :: rest =>
    match case with
    | J.jobj kvs =>
      match TestCaseSchemaValidate (J.jobj kvs) with
      | some validated => validated :: validate_cases rest
      | none =>
        if is_test_case_like kvs then
          match salvage_case kvs with
          | some s => s :: validate_cases rest
          | none => validate_cases rest
        else validate_cases rest
    | _ => validate_cases rest

def wrapper_keys : List String :=
  ["test_cases", "cases", "testCases", "data", "results"]

def findWrapper : List String → List (String × J) → Option (List J)
  | [], _ => none
  | k :: rest, kvs =>
    match lookupKV kvs k with
    | some (J.jarr l) => some l
    | _ => findWrapper rest kvs

/-- `_normalize_response`. -/
def normalize_response (raw : J) : List J :=
  match raw with
  | J.jobj kvs =>
    match findWrapper wrapper_keys kvs with
    | some l => validate_cases l
    | none => if is_test_case_like kvs then validate_cases [J.jobj kvs] else []
  | J.jarr l => validate_cases l
  | _ => []

end Swagger

namespace Swagger

/-! ### generator.py — the five recovery strategies and the pipeline -/

/-- Strategy 1, `_try_direct_parse`. -/
def try_direct_parse (s : String) : Option J := jsonLoads s

def startsTriple (cs : List Char) : Bool :=
  cs.take 3 = [btick, btick, btick]

/-- Characters before the first triple-backtick (the lazy group of the
code-block regex); `none` when no closing fence exists. -/
def splitAtTriple : List Char → Option (List Char)
  | [] => none
  | c :: r =>
    if startsTriple (c :: r) then some []
    else (splitAtTriple r).map (c :: ·)

/-- Leftmost match of the fence regex of `_try_extract_code_block`:
opening fence, optional `json` tag, greedy whitespace, lazily captured
interior, closing fence. -/
def findCodeBlock : List Char → Option (List Char)
  | [] => none
  | c :: r =>
    if startsTriple (c :: r) then
      let after := (c :: r).drop 3
      let after2 := if "json".data.isPrefixOf after then after.drop 4 else after
      let after3 := after2.dropWhile isPyWs
      match splitAtTriple after3 with
      | some content => some content
      | none => findCodeBlock r
    else findCodeBlock r

/-- Strategy 2, `_try_extract_code_block`. -/
def try_extract_code_block (s : String) : Option J :=
  match findCodeBlock s.data with
  | some content => jsonLoadsL content
  | none => none

/-- Strategy 3, `_try_extract_array`: substring from the first `[` to the
last `]` inclusive. -/
def try_extract_array (s : String) : Option J :=
  let cs := s.data
  match strFind cs lbrack, strRFind cs rbrack with
  | some si, some li =>
    if li + 1 > si then jsonLoadsL ((cs.drop si).take (li + 1 - si)) else none
  | _, _ => none

/-- The scan loop of `_find_last_complete_object`: position just past the
last `\x7d` that returned the bracket depth to zero. -/
def flco_go : List Char → Int → Nat → Nat → Bool → Bool → Nat
  | [], _, _, last_pos, _, _ => last_pos
  | c :: rest, depth, i, last_pos, in_string, esc =>
    if esc then flco_go rest depth (i + 1) last_pos in_string false
    else if c = bslash then flco_go rest depth (i + 1) last_pos in_string true
    else if c = dquote then flco_go rest depth (i + 1) last_pos (!in_string) false
    else if in_string then flco_go rest depth (i + 1) last_pos true false
    else if c = lbrace then flco_go rest (depth + 1) (i + 1) last_pos false false
    else if c = rbrace then
      let depth' := depth - 1
      flco_go rest depth' (i + 1) (if depth' = 0 then i + 1 else last_pos) false false
    else if c = lbrack then flco_go rest (depth + 1) (i + 1) last_pos false false
    else if c = rbrack then flco_go rest (depth - 1) (i + 1) last_pos false false
    else flco_go rest depth (i + 1) last_pos false false

def countChar (cs : List Char) (t : Char) : Nat :=
  (cs.filter (· = t)).length

/-- `_find_last_complete_object`. -/
def find_last_complete_object (cs : List Char) : Option (List Char) :=
  let pos := flco_go cs 0 0 0 false false
  if pos > 0 then
    let result := cs.take pos
    some (if countChar result lbrack > countChar result rbrack
          then result ++ [rbrack] else result)
  else none

/-- Strategy 4, `_try_repair_json`: trim to the last complete object when
one is found, balance the bracket counts, strip a trailing comma, close. -/
def try_repair_json (s : String) : Option J :=
  let cs := s.data
  let startIdx := match strFind cs lbrack with
    | some i => some i
    | none => strFind cs lbrace
  match startIdx with
  | none => none
  | some i =>
    let fragment := cs.drop i
    let fragment := match find_last_complete_object fragment with
      | some lc => lc
      | none => fragment
    let open_braces := countChar fragment lbrace - countChar fragment rbrace
    let open_brackets := countChar fragment lbrack - countChar fragment rbrack
    let fragment := pyRstrip fragment
    let fragment := if fragment.getLast? = some ',' then fragment.dropLast else fragment
    let fragment := fragment ++ List.replicate open_braces rbrace ++
      List.replicate open_brackets rbrack
    jsonLoadsL fragment

/-- The scan loop of `_extract_complete_objects`.  `buf` holds the
characters from the current top-level `\x7b` (Python keeps the index
`start` and slices instead).  `none` models the uncaught
`AttributeError` from `_is_test_case_like` on a non-dict parse — the
invariant lemmas show it cannot fire. -/
def extract_go : List Char → Bool → Bool → Int → Option (List Char) → List J →
    Option (List J)
  | [], _, _, _, _, acc => some acc
  | c :: rest, in_string, esc, depth, buf, acc =>
    let buf1 := buf.map (· ++ [c])
    if esc then extract_go rest in_string false depth buf1 acc
    else if c = bslash then extract_go rest in_string true depth buf1 acc
    else if c = dquote then extract_go rest (!in_string) false depth buf1 acc
    else if in_string then extract_go rest true false depth buf1 acc
    else if c = lbrace then
      if depth = 0 then extract_go rest false false (depth + 1) (some [lbrace]) acc
      else extract_go rest false false (depth + 1) buf1 acc
    else if c = rbrace then
      let depth' := depth - 1
      if depth' = 0 then
        match buf1 with
        | some b =>
          match jsonLoadsL b with
          | some obj =>
            match is_test_case_likeJ obj with
            | some pass =>
              extract_go rest false false depth' none (if pass then acc ++ [obj] else acc)
            | none => none
          | none => extract_go rest false false depth' none acc
        | none => extract_go rest false false depth' none acc
      else extract_go rest false false depth' buf1 acc
    else extract_go rest in_string false depth buf1 acc

/-- Strategy 5, `_extract_complete_objects`. -/
def extract_complete_objects (s : String) : Option (List J) :=
  extract_go s.data false false 0 none []

/-- `_parse_llm_response`: the five strategies in order; strategies 1–3
return their normalization unconditionally, strategy 4 only when it
yields a non-empty list, else strategy 5. -/
def parse_llm_response (json_string : String) : Option (List J) :=
  if json_string.data.isEmpty then some []
  else
    match try_direct_parse json_string with
    | some raw => some (normalize_response raw)
    | none =>
      match try_extract_code_block json_string with
      | some raw => some (normalize_response raw)
      | none =>
        match try_extract_array json_string with
        | some raw => some (normalize_response raw)
        | none =>
          let step5 : Option (List J) := extract_complete_objects json_string
          match try_repair_json json_string with
          | some raw =>
            let result := normalize_response raw
            if ¬ result.isEmpty then some result else step5
          | none => step5

/-- The shared mutable state of `LLMTestCaseGenerator`: `self.seen_keys`
and `self.test_cases` (the ResultSet), mutated under `self.lock`. -/
structure GenState where
  seen_keys : List String
  test_cases : List TestCase

/-- The two `case_data[...] = case_data.get(..., default)` assignments
that guarantee path and method are present. -/
def with_path_method (path method : String) (case_data : J) : J :=
  pySetJ (pySetJ case_data "api_path" (pyGetJ case_data "api_path" (J.jstr path)))
    "http_method" (pyGetJ case_data "http_method" (J.jstr method))

/-- `_process_generated_cases` (the body runs under `self.lock`, so the
fold is sequential).  Returns the new state, an ok flag (`false` models a
raised exception, which aborts the batch but keeps earlier appends: the
caller catches it), and `valid_count`. -/
def process_generated_cases (enable_dedup : Bool) (path method : String) :
    List J → GenState → GenState × Bool × Nat
  | [], st => (st, true, 0)
  | case_data :: rest, st =>
    match case_data with
    | J.jobj _ =>
      let cd := with_path_method path method case_data
      match mkTestCase cd with
      | none => (st, false, 0)
      | some tc =>
        if ¬ validate_test_case tc then
          process_generated_cases enable_dedup path method rest st
        else if ¬ enable_dedup then
          let out := process_generated_cases enable_dedup path method rest
            { st with test_cases := st.test_cases ++ [tc] }
          (out.1, out.2.1, out.2.2 + 1)
        else
          match get_unique_key tc with
          | none => (st, false, 0)
          | some key =>
            if key ∈ st.seen_keys then
              process_generated_cases enable_dedup path method rest st
            else
              let out := process_generated_cases enable_dedup path method rest
                { seen_keys := st.seen_keys ++ [key],
                  test_cases := st.test_cases ++ [tc] }
              (out.1, out.2.1, out.2.2 + 1)
    | _ => process_generated_cases enable_dedup path method rest st

end Swagger

namespace Swagger

set_option maxRecDepth 100000

/-! ### Concrete scenario values used by the claims -/

/-- A bare reference node. -/
def refNode (p : String) : J := J.jobj [("$ref", J.jstr p)]

/-- A Swagger 2.0 spec with one plain definition `A`. -/
def spec0 : J :=
  J.jobj [("definitions", J.jobj [("A", J.jobj [("type", J.jstr "string")])])]

def targetA : J := J.jobj [("type", J.jstr "string")]

/-- Acyclic document with two sibling occurrences of the same pointer. -/
def doc0 : J :=
  J.jobj [("x", refNode "#/definitions/A"), ("y", refNode "#/definitions/A")]

/-- A spec whose definition `A` references itself (cycle of length 1). -/
def specCyc : J :=
  J.jobj [("definitions", J.jobj
    [("A", J.jobj [("properties", J.jobj [("next", refNode "#/definitions/A")])])])]

/-- Scenario-B fragment of the spec: truncated mid-string in record B. -/
def sB : String :=
  "[\x7b\"title\":\"A\",\"test_type\":\"Positive\",\"api_path\":\"/x\",\"http_method\":\"GET\",\"test_steps\":[\x7b\"action\":\"a\",\"expected_result\":\"b\"\x7d]\x7d,\x7b\"title\":\"B\",\"test_ty"

/-- The same fragment truncated right after `"title":"B",` (between
tokens), where bracket-balancing repair parses successfully. -/
def sP : String :=
  "[\x7b\"title\":\"A\",\"test_type\":\"Positive\",\"api_path\":\"/x\",\"http_method\":\"GET\",\"test_steps\":[\x7b\"action\":\"a\",\"expected_result\":\"b\"\x7d]\x7d,\x7b\"title\":\"B\","

/-- Record A as parsed from the fragment. -/
def recordA : J := J.jobj
  [("title", J.jstr "A"), ("test_type", J.jstr "Positive"),
   ("api_path", J.jstr "/x"), ("http_method", J.jstr "GET"),
   ("test_steps", J.jarr [J.jobj [("action", J.jstr "a"), ("expected_result", J.jstr "b")]])]

/-- Record A after `_validate_cases` (salvaged: it lacks
`design_technique`, so strict validation fails and salvage fills
defaults). -/
def salvagedA : J := J.jobj
  [("title", J.jstr "A"), ("description", J.jstr ""),
   ("preconditions", J.jstr ""), ("test_type", J.jstr "Positive"),
   ("design_technique", J.jstr "Unknown"), ("api_path", J.jstr "/x"),
   ("http_method", J.jstr "GET"), ("priority", J.jstr "Medium"),
   ("test_steps", J.jarr [J.jobj [("action", J.jstr "a"), ("expected_result", J.jstr "b")]])]

/-- A service response whose record fails strict validation (step without
`expected_result`, `test_type` outside the enum) but salvages. -/
def c1_input : String :=
  "\x7b\"test_cases\":[\x7b\"title\":\"t\",\"test_steps\":[\x7b\"action\":\"a\"\x7d],\"test_type\":\"Unknown\",\"api_path\":\"/x\",\"http_method\":\"GET\"\x7d]\x7d"

/-- The salvaged record recovered from `c1_input`. -/
def c1_salvaged : J := J.jobj
  [("title", J.jstr "t"), ("description", J.jstr ""),
   ("preconditions", J.jstr ""), ("test_type", J.jstr "Unknown"),
   ("design_technique", J.jstr "Unknown"), ("api_path", J.jstr "/x"),
   ("http_method", J.jstr "GET"), ("priority", J.jstr "Medium"),
   ("test_steps", J.jarr [J.jobj [("action", J.jstr "a"), ("expected_result", J.jstr "Verify the result")]])]

/-! ### Counterexample theorems -/

/-- **C1, counterexample.**  A record recovered by the pipeline from
`c1_input` is admitted into the ResultSet with `test_type = "Unknown"`,
which is outside the two-value set `Positive`/`Negative`: the ResultSet
invariant claimed for `test_type` does not hold. -/
theorem c1_counterexample :
    parse_llm_response c1_input = some [c1_salvaged] ∧
    ((process_generated_cases true "/x" "GET" [c1_salvaged]
        ⟨[], []⟩).1.test_cases).map TestCase.test_type = ["Unknown"] ∧
    "Unknown" ∉ testTypeValues :=
  ⟨rfl, rfl, by decide⟩

/-- **C2, counterexample.**  On the scenario-B fragment the
bracket-balancing repair strategy (`_try_repair_json`) recovers nothing
at all — not the first complete record — and on the nearby fragment `sP`
it returns a partially-parsed record that consists of nothing but a
title (its required fields `test_steps`, `test_type`, … are missing). -/
theorem c2_counterexample :
    try_repair_json sB = none ∧
    try_repair_json sP = some (J.jarr [recordA, J.jobj [("title", J.jstr "B")]]) ∧
    lookupKV [("title", J.jstr "B")] "test_steps" = none :=
  ⟨rfl, rfl, rfl⟩

/-- **C3, counterexample.**  An acyclic spec with two sibling occurrences
of the pointer `#/definitions/A`: deep resolution replaces the second
occurrence by the circular-reference sentinel instead of the resolved
target, because the visited set is never pruned after an expansion
finishes. -/
theorem c3_counterexample :
    resolve_refs_recursive SpecVersion.swagger2 spec0 32 (RIn.rnode doc0) [] =
      some (Except.ok (J.jobj [("x", targetA), ("y", circular_sentinel "#/definitions/A")],
        ["#/definitions/A"])) ∧
    circular_sentinel "#/definitions/A" ≠ targetA :=
  ⟨rfl, by simp [circular_sentinel, targetA]⟩

/-- **C9, counterexample.**  Deep resolution of a document holding an
external (non-`#/`) pointer leaves the reference node unchanged — it is
not replaced by the empty structure, because the empty resolution result
is falsy and the code then returns the original node. -/
theorem c9_counterexample :
    resolve_refs_recursive SpecVersion.swagger2 spec0 32
      (RIn.rnode (refNode "http://external/Pet")) [] =
      some (Except.ok (refNode "http://external/Pet", ["http://external/Pet"])) ∧
    refNode "http://external/Pet" ≠ emptyObj :=
  ⟨rfl, by simp [refNode, emptyObj]⟩

/-- **C2, amended.**  On the scenario-B fragment the repair strategy
itself yields nothing (the truncation falls inside a string literal, so
the balanced fragment still fails to parse); the pipeline then recovers
exactly the first complete record via object salvage and drops the
second.  On the fragment `sP`, where repair does emit a partial record,
validation drops it and the pipeline returns only the complete record
(salvaged with neutral defaults). -/
theorem c2_scenario_b_pipeline :
    try_repair_json sB = none ∧
    parse_llm_response sB = some [recordA] ∧
    parse_llm_response sP = some [salvagedA] :=
  ⟨rfl, rfl, rfl⟩

end Swagger

namespace Swagger

def reassemble : RIn → J
  | RIn.rnode j => j
  | RIn.rentries l => J.jobj l
  | RIn.ritems l => J.jarr l

def noRefsRIn : RIn → Bool
  | RIn.rnode j => noRefs j
  | RIn.rentries l => noRefsEntries l
  | RIn.ritems l => noRefsItems l

theorem sizeJ_pos (j : J) : 1 ≤ sizeJ j := by
  cases j <;> simp [sizeJ]

theorem sizeEntries_pos (l : List (String × J)) : 1 ≤ sizeEntries l := by
  cases l with
  | nil => simp [sizeEntries]
  | cons p r => simp only [sizeEntries]; omega

theorem sizeItems_pos (l : List J) : 1 ≤ sizeItems l := by
  cases l with
  | nil => simp [sizeItems]
  | cons x r => simp only [sizeItems]; omega

theorem sizeRIn_pos (t : RIn) : 1 ≤ sizeRIn t := by
  cases t <;> simp [sizeRIn, sizeJ_pos, sizeEntries_pos, sizeItems_pos]

/-! One-step unfolding lemmas for `resolve_refs_recursive` (the variable
fuel keeps rewriting from cascading through nested calls). -/

theorem rdeep_node_leaf (sv : SpecVersion) (spec : J) (n : Nat) (visited : List String)
    (j : J) (hj : (match j with | J.jobj _ => False | J.jarr _ => False | _ => True)) :
    resolve_refs_recursive sv spec (n + 1) (RIn.rnode j) visited =
      some (Except.ok (j, visited)) := by
  cases j <;> simp_all [resolve_refs_recursive]

theorem rdeep_node_obj_noref (sv : SpecVersion) (spec : J) (n : Nat)
    (kvs : List (String × J)) (visited : List String)
    (h : lookupKV kvs "$ref" = none) :
    resolve_refs_recursive sv spec (n + 1) (RIn.rnode (J.jobj kvs)) visited =
      resolve_refs_recursive sv spec n (RIn.rentries kvs) visited := by
  simp [resolve_refs_recursive, h]

theorem rdeep_node_arr (sv : SpecVersion) (spec : J) (n : Nat)
    (xs : List J) (visited : List String) :
    resolve_refs_recursive sv spec (n + 1) (RIn.rnode (J.jarr xs)) visited =
      resolve_refs_recursive sv spec n (RIn.ritems xs) visited := by
  simp [resolve_refs_recursive]

theorem rdeep_ref_mem (sv : SpecVersion) (spec : J) (n : Nat)
    (kvs : List (String × J)) (p : String) (visited : List String)
    (h : lookupKV kvs "$ref" = some (J.jstr p)) (hp : p ∈ visited) :
    resolve_refs_recursive sv spec (n + 1) (RIn.rnode (J.jobj kvs)) visited =
      some (Except.ok (circular_sentinel p, visited)) := by
  simp [resolve_refs_recursive, h, hp]

theorem rdeep_ref_new_truthy (sv : SpecVersion) (spec : J) (n : Nat)
    (kvs : List (String × J)) (p : String) (visited : List String) (target : J)
    (h : lookupKV kvs "$ref" = some (J.jstr p)) (hp : p ∉ visited)
    (hres : resolve_ref sv spec p = some target) (htr : truthyJ target = true) :
    resolve_refs_recursive sv spec (n + 1) (RIn.rnode (J.jobj kvs)) visited =
      resolve_refs_recursive sv spec n (RIn.rnode target) (visited ++ [p]) := by
  simp [resolve_refs_recursive, h, hp, hres, htr, pySetAdd]

theorem rdeep_ref_new_falsy (sv : SpecVersion) (spec : J) (n : Nat)
    (kvs : List (String × J)) (p : String) (visited : List String) (resolved : J)
    (h : lookupKV kvs "$ref" = some (J.jstr p)) (hp : p ∉ visited)
    (hres : resolve_ref sv spec p = some resolved) (htr : truthyJ resolved = false) :
    resolve_refs_recursive sv spec (n + 1) (RIn.rnode (J.jobj kvs)) visited =
      some (Except.ok (J.jobj kvs, visited ++ [p])) := by
  simp [resolve_refs_recursive, h, hp, hres, htr, pySetAdd]

theorem rdeep_entries_nil (sv : SpecVersion) (spec : J) (n : Nat) (visited : List String) :
    resolve_refs_recursive sv spec (n + 1) (RIn.rentries []) visited =
      some (Except.ok (J.jobj [], visited)) := rfl

theorem rdeep_items_nil (sv : SpecVersion) (spec : J) (n : Nat) (visited : List String) :
    resolve_refs_recursive sv spec (n + 1) (RIn.ritems []) visited =
      some (Except.ok (J.jarr [], visited)) := rfl

theorem rdeep_entries_cons_ok (sv : SpecVersion) (spec : J) (n : Nat)
    (k : String) (v : J) (rest : List (String × J)) (visited vis' vis'' : List String)
    (v' : J) (rest' : List (String × J))
    (h1 : resolve_refs_recursive sv spec n (RIn.rnode v) visited =
      some (Except.ok (v', vis')))
    (h2 : resolve_refs_recursive sv spec n (RIn.rentries rest) vis' =
      some (Except.ok (J.jobj rest', vis''))) :
    resolve_refs_recursive sv spec (n + 1) (RIn.rentries ((k, v) :: rest)) visited =
      some (Except.ok (J.jobj ((k, v') :: rest'), vis'')) := by
  simp [resolve_refs_recursive, h1, h2]

theorem rdeep_items_cons_ok (sv : SpecVersion) (spec : J) (n : Nat)
    (x : J) (rest : List J) (visited vis' vis'' : List String)
    (x' : J) (rest' : List J)
    (h1 : resolve_refs_recursive sv spec n (RIn.rnode x) visited =
      some (Except.ok (x', vis')))
    (h2 : resolve_refs_recursive sv spec n (RIn.ritems rest) vis' =
      some (Except.ok (J.jarr rest', vis''))) :
    resolve_refs_recursive sv spec (n + 1) (RIn.ritems (x :: rest)) visited =
      some (Except.ok (J.jarr (x' :: rest'), vis'')) := by
  simp [resolve_refs_recursive, h1, h2]

end Swagger

namespace Swagger

theorem rdeep_noRefs_id (sv : SpecVersion) (spec : J) :
    ∀ (n : Nat) (task : RIn) (visited : List String),
      noRefsRIn task = true → sizeRIn task ≤ n →
      resolve_refs_recursive sv spec n task visited =
        some (Except.ok (reassemble task, visited)) := by
  intro n
  induction n with
  | zero =>
    intro task visited _ hs
    exact absurd (Nat.le_trans (sizeRIn_pos task) hs) (by omega)
  | succ n ih =>
    intro task visited hnr hs
    match task with
    | RIn.rnode j =>
      cases j with
      | null => simp [resolve_refs_recursive, reassemble]
      | jbool b => simp [resolve_refs_recursive, reassemble]
      | jnum s => simp [resolve_refs_recursive, reassemble]
      | jstr s => simp [resolve_refs_recursive, reassemble]
      | jobj kvs =>
        simp only [noRefsRIn, noRefs, Bool.and_eq_true, Option.isNone_iff_eq_none] at hnr
        simp only [sizeRIn, sizeJ] at hs
        have hrec := ih (RIn.rentries kvs) visited (by simpa [noRefsRIn] using hnr.2)
          (by simp only [sizeRIn]; omega)
        rw [rdeep_node_obj_noref sv spec n kvs visited hnr.1, hrec]
        rfl
      | jarr xs =>
        simp only [noRefsRIn, noRefs] at hnr
        simp only [sizeRIn, sizeJ] at hs
        have hrec := ih (RIn.ritems xs) visited (by simpa [noRefsRIn] using hnr)
          (by simp only [sizeRIn]; omega)
        rw [rdeep_node_arr, hrec]
        rfl
    | RIn.rentries l =>
      cases l with
      | nil => simp [resolve_refs_recursive, reassemble]
      | cons p rest =>
        obtain ⟨k, v⟩ := p
        simp only [noRefsRIn, noRefsEntries, Bool.and_eq_true] at hnr
        simp only [sizeRIn, sizeEntries] at hs
        have hv := sizeJ_pos v
        have hr := sizeEntries_pos rest
        have h1 := ih (RIn.rnode v) visited (by simpa [noRefsRIn] using hnr.1)
          (by simp only [sizeRIn]; omega)
        have h2 := ih (RIn.rentries rest) visited (by simpa [noRefsRIn] using hnr.2)
          (by simp only [sizeRIn]; omega)
        simp only [reassemble] at h1 h2
        exact rdeep_entries_cons_ok sv spec n k v rest visited visited visited v rest h1 h2
    | RIn.ritems l =>
      cases l with
      | nil => simp [resolve_refs_recursive, reassemble]
      | cons x rest =>
        simp only [noRefsRIn, noRefsItems, Bool.and_eq_true] at hnr
        simp only [sizeRIn, sizeItems] at hs
        have hv := sizeJ_pos x
        have hr := sizeItems_pos rest
        have h1 := ih (RIn.rnode x) visited (by simpa [noRefsRIn] using hnr.1)
          (by simp only [sizeRIn]; omega)
        have h2 := ih (RIn.ritems rest) visited (by simpa [noRefsRIn] using hnr.2)
          (by simp only [sizeRIn]; omega)
        simp only [reassemble] at h1 h2
        exact rdeep_items_cons_ok sv spec n x rest visited visited visited x rest h1 h2

theorem c9_external_ref (sv : SpecVersion) (spec : J) (p : String) (visited : List String) (n : Nat)
    (hext : pyStartsWith p ['#', '/'] = false) (hnv : p ∉ visited) :
    resolve_ref sv spec p = some emptyObj ∧
    resolve_refs_recursive sv spec (n + 1) (RIn.rnode (refNode p)) visited =
      some (Except.ok (refNode p, visited ++ [p])) := by
  have h1 : resolve_ref sv spec p = some emptyObj := by
    simp [resolve_ref, hext]
  refine ⟨h1, ?_⟩
  exact rdeep_ref_new_falsy sv spec n [("$ref", J.jstr p)] p visited emptyObj
    (by simp [lookupKV]) hnv h1 (by simp [truthyJ, emptyObj])

theorem c3_visited_persists (sv : SpecVersion) (spec : J) (p k1 k2 : String) (target : J)
    (visited : List String)
    (hnv : p ∉ visited) (hk1 : k1 ≠ "$ref") (hk2 : k2 ≠ "$ref")
    (hres : resolve_ref sv spec p = some target)
    (htr : truthyJ target = true) (hnr : noRefs target = true) :
    resolve_refs_recursive sv spec (sizeJ target + 3)
      (RIn.rnode (J.jobj [(k1, refNode p), (k2, refNode p)])) visited =
      some (Except.ok (J.jobj [(k1, target), (k2, circular_sentinel p)], visited ++ [p])) := by
  obtain ⟨m, hm⟩ : ∃ m, sizeJ target = m + 1 :=
    ⟨sizeJ target - 1, by have := sizeJ_pos target; omega⟩
  rw [hm]
  have hrefNode : lookupKV [("$ref", J.jstr p)] "$ref" = some (J.jstr p) := by
    simp [lookupKV]
  have hmem : p ∈ visited ++ [p] := by simp
  -- the first occurrence expands to the fully resolved target
  have eRef : resolve_refs_recursive sv spec (m + 2) (RIn.rnode (refNode p)) visited =
      some (Except.ok (target, visited ++ [p])) := by
    rw [show m + 2 = (m + 1) + 1 from rfl]
    simp only [refNode]
    rw [rdeep_ref_new_truthy sv spec (m + 1) [("$ref", J.jstr p)] p visited target
      hrefNode hnv hres htr]
    exact rdeep_noRefs_id sv spec (m + 1) (RIn.rnode target) (visited ++ [p]) hnr
      (by simp [sizeRIn, hm])
  -- the second occurrence is replaced by the sentinel
  have eSent : resolve_refs_recursive sv spec (m + 1) (RIn.rnode (refNode p)) (visited ++ [p]) =
      some (Except.ok (circular_sentinel p, visited ++ [p])) := by
    simp only [refNode]
    exact rdeep_ref_mem sv spec m [("$ref", J.jstr p)] p (visited ++ [p]) hrefNode hmem
  have eTail : resolve_refs_recursive sv spec (m + 2)
      (RIn.rentries [(k2, refNode p)]) (visited ++ [p]) =
      some (Except.ok (J.jobj [(k2, circular_sentinel p)], visited ++ [p])) :=
    rdeep_entries_cons_ok sv spec (m + 1) k2 (refNode p) [] (visited ++ [p]) (visited ++ [p])
      (visited ++ [p]) (circular_sentinel p) [] eSent
      (rdeep_entries_nil sv spec m (visited ++ [p]))
  have eEntries : resolve_refs_recursive sv spec (m + 3)
      (RIn.rentries [(k1, refNode p), (k2, refNode p)]) visited =
      some (Except.ok (J.jobj [(k1, target), (k2, circular_sentinel p)], visited ++ [p])) :=
    rdeep_entries_cons_ok sv spec (m + 2) k1 (refNode p) [(k2, refNode p)] visited
      (visited ++ [p]) (visited ++ [p]) target [(k2, circular_sentinel p)] eRef eTail
  have hlk : lookupKV [(k1, refNode p), (k2, refNode p)] "$ref" = none := by
    simp [lookupKV, hk1, hk2]
  rw [show m + 1 + 3 = (m + 3) + 1 from rfl]
  rw [rdeep_node_obj_noref sv spec (m + 3) _ visited hlk]
  exact eEntries

end Swagger

namespace Swagger

/-- **C8.**  On a spec document containing no reference nodes, deep
resolution is the identity transform (and the visited set is unchanged):
for any fuel at least the size of the document the resolver returns the
document itself. -/
theorem c8_identity_on_ref_free (sv : SpecVersion) (spec obj : J)
    (visited : List String) (n : Nat)
    (h1 : noRefs obj = true) (h2 : sizeJ obj ≤ n) :
    resolve_refs_recursive sv spec n (RIn.rnode obj) visited =
      some (Except.ok (obj, visited)) :=
  rdeep_noRefs_id sv spec n (RIn.rnode obj) visited h1 h2

/-- **C8, witness.** -/
theorem c8_identity_on_ref_free_witness :
    noRefs spec0 = true ∧ sizeJ spec0 ≤ 32 ∧
    resolve_refs_recursive SpecVersion.swagger2 emptyObj 32 (RIn.rnode spec0) [] =
      some (Except.ok (spec0, [])) :=
  ⟨rfl, by decide,
    c8_identity_on_ref_free SpecVersion.swagger2 emptyObj spec0 [] 32 rfl (by decide)⟩

/-- **C3, amended witness.**  The concrete acyclic sibling document. -/
theorem c3_visited_persists_witness :
    resolve_refs_recursive SpecVersion.swagger2 spec0 (sizeJ targetA + 3)
      (RIn.rnode (J.jobj [("x", refNode "#/definitions/A"), ("y", refNode "#/definitions/A")])) [] =
      some (Except.ok (J.jobj [("x", targetA), ("y", circular_sentinel "#/definitions/A")],
        [] ++ ["#/definitions/A"])) :=
  c3_visited_persists SpecVersion.swagger2 spec0 "#/definitions/A" "x" "y" targetA []
    (by simp) (by decide) (by decide) rfl rfl rfl

/-- **C9, amended witness.** -/
theorem c9_external_ref_witness :
    resolve_ref SpecVersion.swagger2 spec0 "http://external/Pet" = some emptyObj ∧
    resolve_refs_recursive SpecVersion.swagger2 spec0 32
      (RIn.rnode (refNode "http://external/Pet")) [] =
      some (Except.ok (refNode "http://external/Pet", [] ++ ["http://external/Pet"])) :=
  c9_external_ref SpecVersion.swagger2 spec0 "http://external/Pet" [] 31
    (by decide) (by simp)

end Swagger

namespace Swagger

theorem subset_pySetAdd (s : List String) (x : String) : s ⊆ pySetAdd s x := by
  unfold pySetAdd
  split
  · exact List.Subset.refl s
  · exact List.subset_append_left s [x]

theorem pySetAdd_not_mem (s : List String) (x : String) (h : x ∉ s) :
    pySetAdd s x = s ++ [x] := by
  simp [pySetAdd, h]

/-- Error-result step lemmas (used to show the resolver is defined). -/
theorem rdeep_ref_exc (sv : SpecVersion) (spec : J) (n : Nat)
    (kvs : List (String × J)) (p : String) (visited : List String)
    (h : lookupKV kvs "$ref" = some (J.jstr p)) (hp : p ∉ visited)
    (hres : resolve_ref sv spec p = none) :
    resolve_refs_recursive sv spec (n + 1) (RIn.rnode (J.jobj kvs)) visited =
      some (Except.error ()) := by
  simp [resolve_refs_recursive, h, hp, hres]

theorem rdeep_visited_mono (sv : SpecVersion) (spec : J) :
    ∀ (n : Nat) (task : RIn) (visited : List String) (out : J) (vis' : List String),
      resolve_refs_recursive sv spec n task visited = some (Except.ok (out, vis')) →
      visited ⊆ vis' := by
  intro n
  induction n with
  | zero =>
    intro task visited out vis' h
    simp [resolve_refs_recursive] at h
  | succ n ih =>
    intro task visited out vis' h
    match task with
    | RIn.rnode j =>
      cases j with
      | null =>
        simp [resolve_refs_recursive] at h
        rcases h with ⟨-, rfl⟩
        exact List.Subset.refl _
      | jbool b =>
        simp [resolve_refs_recursive] at h
        rcases h with ⟨-, rfl⟩
        exact List.Subset.refl _
      | jnum s =>
        simp [resolve_refs_recursive] at h
        rcases h with ⟨-, rfl⟩
        exact List.Subset.refl _
      | jstr s =>
        simp [resolve_refs_recursive] at h
        rcases h with ⟨-, rfl⟩
        exact List.Subset.refl _
      | jarr xs =>
        rw [rdeep_node_arr] at h
        exact ih (RIn.ritems xs) visited out vis' h
      | jobj kvs =>
        cases hl : lookupKV kvs "$ref" with
        | none =>
          rw [rdeep_node_obj_noref sv spec n kvs visited hl] at h
          exact ih (RIn.rentries kvs) visited out vis' h
        | some rv =>
          cases rv with
          | jstr p =>
            by_cases hp : p ∈ visited
            · rw [rdeep_ref_mem sv spec n kvs p visited hl hp] at h
              simp at h
              rcases h with ⟨-, rfl⟩
              exact List.Subset.refl _
            · cases hr : resolve_ref sv spec p with
              | none =>
                rw [rdeep_ref_exc sv spec n kvs p visited hl hp hr] at h
                simp at h
              | some resolved =>
                by_cases ht : truthyJ resolved
                · rw [rdeep_ref_new_truthy sv spec n kvs p visited resolved hl hp hr ht] at h
                  exact List.Subset.trans (subset_pySetAdd visited p)
                    (by rw [pySetAdd_not_mem visited p hp]; exact ih _ _ _ _ h)
                · rw [rdeep_ref_new_falsy sv spec n kvs p visited resolved hl hp hr
                    (by simpa using ht)] at h
                  simp at h
                  rcases h with ⟨-, rfl⟩
                  exact List.subset_append_left _ _
          | null => simp [resolve_refs_recursive, hl] at h
          | jbool b => simp [resolve_refs_recursive, hl] at h
          | jnum s => simp [resolve_refs_recursive, hl] at h
          | jarr xs => simp [resolve_refs_recursive, hl] at h
          | jobj kvs2 => simp [resolve_refs_recursive, hl] at h
    | RIn.rentries l =>
      cases l with
      | nil =>
        simp [resolve_refs_recursive] at h
        rcases h with ⟨-, rfl⟩
        exact List.Subset.refl _
      | cons q rest =>
        obtain ⟨k, v⟩ := q
        cases hc : resolve_refs_recursive sv spec n (RIn.rnode v) visited with
        | none => simp [resolve_refs_recursive, hc] at h
        | some r1 =>
          cases r1 with
          | error e => simp [resolve_refs_recursive, hc] at h
          | ok pr =>
            obtain ⟨v', vis1⟩ := pr
            cases hrr : resolve_refs_recursive sv spec n (RIn.rentries rest) vis1 with
            | none => simp [resolve_refs_recursive, hc, hrr] at h
            | some r2 =>
              cases r2 with
              | error e => simp [resolve_refs_recursive, hc, hrr] at h
              | ok pr2 =>
                obtain ⟨rest', vis2⟩ := pr2
                cases rest' with
                | jobj ro =>
                  have h2 : vis2 = vis' := by
                    simp [resolve_refs_recursive, hc, hrr] at h
                    exact h.2
                  exact List.Subset.trans (ih _ _ _ _ hc) (h2 ▸ ih _ _ _ _ hrr)
                | null => simp [resolve_refs_recursive, hc, hrr] at h
                | jbool b => simp [resolve_refs_recursive, hc, hrr] at h
                | jnum s => simp [resolve_refs_recursive, hc, hrr] at h
                | jstr s => simp [resolve_refs_recursive, hc, hrr] at h
                | jarr xs => simp [resolve_refs_recursive, hc, hrr] at h
    | RIn.ritems l =>
      cases l with
      | nil =>
        simp [resolve_refs_recursive] at h
        rcases h with ⟨-, rfl⟩
        exact List.Subset.refl _
      | cons x rest =>
        cases hc : resolve_refs_recursive sv spec n (RIn.rnode x) visited with
        | none => simp [resolve_refs_recursive, hc] at h
        | some r1 =>
          cases r1 with
          | error e => simp [resolve_refs_recursive, hc] at h
          | ok pr =>
            obtain ⟨x', vis1⟩ := pr
            cases hrr : resolve_refs_recursive sv spec n (RIn.ritems rest) vis1 with
            | none => simp [resolve_refs_recursive, hc, hrr] at h
            | some r2 =>
              cases r2 with
              | error e => simp [resolve_refs_recursive, hc, hrr] at h
              | ok pr2 =>
                obtain ⟨rest', vis2⟩ := pr2
                cases rest' with
                | jarr ro =>
                  have h2 : vis2 = vis' := by
                    simp [resolve_refs_recursive, hc, hrr] at h
                    exact h.2
                  exact List.Subset.trans (ih _ _ _ _ hc) (h2 ▸ ih _ _ _ _ hrr)
                | null => simp [resolve_refs_recursive, hc, hrr] at h
                | jbool b => simp [resolve_refs_recursive, hc, hrr] at h
                | jnum s => simp [resolve_refs_recursive, hc, hrr] at h
                | jstr s => simp [resolve_refs_recursive, hc, hrr] at h
                | jobj kvs => simp [resolve_refs_recursive, hc, hrr] at h

end Swagger

namespace Swagger

theorem lookupKV_size {kvs : List (String × J)} {k : String} {v : J}
    (h : lookupKV kvs k = some v) : sizeJ v ≤ sizeEntries kvs := by
  induction kvs with
  | nil => simp [lookupKV] at h
  | cons p rest ih =>
    obtain ⟨k', v'⟩ := p
    simp only [lookupKV] at h
    split at h
    · cases h
      simp only [sizeEntries]
      omega
    · have := ih h
      simp only [sizeEntries]
      omega

theorem lookupKV_refs {kvs : List (String × J)} {k : String} {v : J}
    (h : lookupKV kvs k = some v) : refsJ v ⊆ refsEntries kvs := by
  induction kvs with
  | nil => simp [lookupKV] at h
  | cons p rest ih =>
    obtain ⟨k', v'⟩ := p
    simp only [lookupKV] at h
    split at h
    · cases h
      simp only [refsEntries]
      intro x hx
      simp [Finset.mem_union, hx]
    · have := ih h
      simp only [refsEntries]
      intro x hx
      simp [Finset.mem_union, this hx]

theorem lookupKV_ref_mem {kvs : List (String × J)} {p : String}
    (h : lookupKV kvs "$ref" = some (J.jstr p)) : p ∈ refsEntries kvs := by
  induction kvs with
  | nil => simp [lookupKV] at h
  | cons q rest ih =>
    obtain ⟨k', v'⟩ := q
    simp only [lookupKV] at h
    split at h
    · cases h
      rename_i hk
      simp [refsEntries, hk]
    · have := ih h
      simp [refsEntries, this]

theorem pyGetKV_size (kvs : List (String × J)) (k : String) (dflt : J) :
    sizeJ (pyGetKV kvs k dflt) ≤ max (sizeEntries kvs) (sizeJ dflt) := by
  unfold pyGetKV
  cases h : lookupKV kvs k with
  | some v => exact le_max_of_le_left (lookupKV_size h)
  | none => exact le_max_of_le_right le_rfl

theorem pyGetKV_refs (kvs : List (String × J)) (k : String) (dflt : J) :
    refsJ (pyGetKV kvs k dflt) ⊆ refsEntries kvs ∪ refsJ dflt := by
  unfold pyGetKV
  cases h : lookupKV kvs k with
  | some v => exact Finset.Subset.trans (lookupKV_refs h) Finset.subset_union_left
  | none => exact Finset.subset_union_right

theorem pyGetA_size {d : J} {k : String} {r : J} (h : pyGetA d k = some r) :
    sizeJ r ≤ max (sizeJ d) 2 := by
  cases d <;> simp [pyGetA] at h
  case jobj kvs =>
    subst h
    have := pyGetKV_size kvs k emptyObj
    have h2 : sizeJ emptyObj = 2 := rfl
    simp only [sizeJ]
    omega

theorem pyGetA_refs {d : J} {k : String} {r : J} (h : pyGetA d k = some r) :
    refsJ r ⊆ refsJ d := by
  cases d <;> simp [pyGetA] at h
  case jobj kvs =>
    subst h
    have := pyGetKV_refs kvs k emptyObj
    simpa [refsJ, emptyObj, refsEntries] using this

theorem genericTraverse_size (parts : List String) (x : J) :
    sizeJ (genericTraverse parts x) ≤ max (sizeJ x) 2 := by
  induction parts generalizing x with
  | nil =>
    simp only [genericTraverse]
    split
    · exact le_max_left _ _
    · exact le_max_of_le_right (by simp [emptyObj, sizeJ, sizeEntries])
  | cons part rest ih =>
    cases x with
    | jobj kvs =>
      simp only [genericTraverse]
      have h1 := ih (pyGetKV kvs part emptyObj)
      have h2 := pyGetKV_size kvs part emptyObj
      have h3 : sizeJ emptyObj = 2 := rfl
      have h4 : sizeJ (J.jobj kvs) = 1 + sizeEntries kvs := rfl
      omega
    | null => simp [genericTraverse, emptyObj, sizeJ, sizeEntries]
    | jbool b => simp [genericTraverse, emptyObj, sizeJ, sizeEntries]
    | jnum s => simp [genericTraverse, emptyObj, sizeJ, sizeEntries]
    | jstr s => simp [genericTraverse, emptyObj, sizeJ, sizeEntries]
    | jarr xs => simp [genericTraverse, emptyObj, sizeJ, sizeEntries]

theorem genericTraverse_refs (parts : List String) (x : J) :
    refsJ (genericTraverse parts x) ⊆ refsJ x := by
  induction parts generalizing x with
  | nil =>
    simp only [genericTraverse]
    split
    · exact Finset.Subset.refl _
    · simp [emptyObj, refsJ, refsEntries]
  | cons part rest ih =>
    cases x with
    | jobj kvs =>
      simp only [genericTraverse]
      have h1 := ih (pyGetKV kvs part emptyObj)
      have h2 := pyGetKV_refs kvs part emptyObj
      refine Finset.Subset.trans h1 (Finset.Subset.trans h2 ?_)
      simp [refsJ, emptyObj, refsEntries]
    | null => simp [genericTraverse, emptyObj, refsJ, refsEntries]
    | jbool b => simp [genericTraverse, emptyObj, refsJ, refsEntries]
    | jnum s => simp [genericTraverse, emptyObj, refsJ, refsEntries]
    | jstr s => simp [genericTraverse, emptyObj, refsJ, refsEntries]
    | jarr xs => simp [genericTraverse, emptyObj, refsJ, refsEntries]

theorem resolve_ref_size {sv : SpecVersion} {spec : J} {p : String} {r : J}
    (h : resolve_ref sv spec p = some r) : sizeJ r ≤ sizeJ spec + 2 := by
  have hge := sizeJ_pos spec
  have hempty : sizeJ emptyObj = 2 := rfl
  have hgen : ∀ parts, genericTraverse parts spec = r → sizeJ r ≤ sizeJ spec + 2 := by
    intro parts hr
    have := genericTraverse_size parts spec
    rw [hr] at this
    omega
  cases sv with
  | openapi3 =>
    unfold resolve_ref at h
    split at h
    · cases h; omega
    · simp only at h
      split at h
      · exact hgen _ (by injection h)
      · split at h
        · split at h
          · cases h
          · split at h
            · split at h
              · cases h
              · simp only [Option.bind_eq_bind, Option.bind_eq_some] at h
                obtain ⟨c, hc, s', hs, hr⟩ := h
                have b1 := pyGetA_size hc
                have b2 := pyGetA_size hs
                have b3 := pyGetA_size hr
                omega
            · exact hgen _ (by injection h)
        · exact hgen _ (by injection h)
  | swagger2 =>
    unfold resolve_ref at h
    split at h
    · cases h; omega
    · simp only at h
      split at h
      · exact hgen _ (by injection h)
      · split at h
        · split at h
          · cases h
          · simp only [Option.bind_eq_bind, Option.bind_eq_some] at h
            obtain ⟨c, hc, hr⟩ := h
            have b1 := pyGetA_size hc
            have b2 := pyGetA_size hr
            omega
        · exact hgen _ (by injection h)

theorem resolve_ref_refs {sv : SpecVersion} {spec : J} {p : String} {r : J}
    (h : resolve_ref sv spec p = some r) : refsJ r ⊆ refsJ spec := by
  have hgen : ∀ parts, genericTraverse parts spec = r → refsJ r ⊆ refsJ spec := by
    intro parts hr
    have := genericTraverse_refs parts spec
    rw [hr] at this
    exact this
  have hemp : refsJ emptyObj ⊆ refsJ spec := by simp [emptyObj, refsJ, refsEntries]
  cases sv with
  | openapi3 =>
    unfold resolve_ref at h
    split at h
    · cases h; exact hemp
    · simp only at h
      split at h
      · exact hgen _ (by injection h)
      · split at h
        · split at h
          · cases h
          · split at h
            · split at h
              · cases h
              · simp only [Option.bind_eq_bind, Option.bind_eq_some] at h
                obtain ⟨c, hc, s', hs, hr⟩ := h
                exact Finset.Subset.trans (pyGetA_refs hr)
                  (Finset.Subset.trans (pyGetA_refs hs) (pyGetA_refs hc))
            · exact hgen _ (by injection h)
        · exact hgen _ (by injection h)
  | swagger2 =>
    unfold resolve_ref at h
    split at h
    · cases h; exact hemp
    · simp only at h
      split at h
      · exact hgen _ (by injection h)
      · split at h
        · split at h
          · cases h
          · simp only [Option.bind_eq_bind, Option.bind_eq_some] at h
            obtain ⟨c, hc, hr⟩ := h
            exact Finset.Subset.trans (pyGetA_refs hr) (pyGetA_refs hc)
        · exact hgen _ (by injection h)

end Swagger

namespace Swagger

def refsRIn' : RIn → Finset String
  | RIn.rnode j => refsJ j
  | RIn.rentries l => refsEntries l
  | RIn.ritems l => refsItems l

theorem refsEntries_cons_val (k : String) (v : J) (rest : List (String × J)) :
    refsJ v ⊆ refsEntries ((k, v) :: rest) := by
  simp only [refsEntries]
  intro x hx
  simp [Finset.mem_union, hx]

theorem refsEntries_cons_rest (k : String) (v : J) (rest : List (String × J)) :
    refsEntries rest ⊆ refsEntries ((k, v) :: rest) := by
  simp only [refsEntries]
  intro x hx
  simp [Finset.mem_union, hx]

theorem refsItems_cons_val (x : J) (rest : List J) :
    refsJ x ⊆ refsItems (x :: rest) := by
  simp only [refsItems]
  exact Finset.subset_union_left

theorem refsItems_cons_rest (x : J) (rest : List J) :
    refsItems rest ⊆ refsItems (x :: rest) := by
  simp only [refsItems]
  exact Finset.subset_union_right

theorem card_sdiff_mono_of_subset {A : Finset String} {v1 v2 : List String}
    (h : v1 ⊆ v2) : (A \ v2.toFinset).card ≤ (A \ v1.toFinset).card := by
  apply Finset.card_le_card
  apply Finset.sdiff_subset_sdiff (Finset.Subset.refl A)
  intro x hx
  simp only [List.mem_toFinset] at hx ⊢
  exact h hx

/-- Sufficient fuel for the resolver: the measure
`size + (sizeJ spec + 3) * |unvisited pointers|` bounds the recursion
depth, so `resolve_refs_recursive` never exhausts its fuel (every run of
the Python function is modelled by a large-enough fuel). -/
theorem rdeep_sufficient_fuel (sv : SpecVersion) (spec : J) (A : Finset String)
    (hA : refsJ spec ⊆ A) :
    ∀ (n : Nat) (task : RIn) (visited : List String),
      refsRIn' task ⊆ A →
      sizeRIn task + (sizeJ spec + 3) * (A \ visited.toFinset).card ≤ n →
      (resolve_refs_recursive sv spec n task visited).isSome = true := by
  intro n
  induction n with
  | zero =>
    intro task visited _ hs
    have := sizeRIn_pos task
    omega
  | succ n ih =>
    intro task visited hrefs hs
    match task with
    | RIn.rnode j =>
      cases j with
      | null => rw [rdeep_node_leaf sv spec n visited _ trivial]; rfl
      | jbool b => rw [rdeep_node_leaf sv spec n visited _ trivial]; rfl
      | jnum s => rw [rdeep_node_leaf sv spec n visited _ trivial]; rfl
      | jstr s => rw [rdeep_node_leaf sv spec n visited _ trivial]; rfl
      | jarr xs =>
        rw [rdeep_node_arr]
        apply ih (RIn.ritems xs) visited (by simpa [refsRIn', refsJ] using hrefs)
        simp only [sizeRIn, sizeJ] at hs ⊢
        omega
      | jobj kvs =>
        cases hl : lookupKV kvs "$ref" with
        | none =>
          rw [rdeep_node_obj_noref sv spec n kvs visited hl]
          apply ih (RIn.rentries kvs) visited (by simpa [refsRIn', refsJ] using hrefs)
          simp only [sizeRIn, sizeJ] at hs ⊢
          omega
        | some rv =>
          cases rv with
          | jstr p =>
            by_cases hp : p ∈ visited
            · rw [rdeep_ref_mem sv spec n kvs p visited hl hp]; rfl
            · cases hr : resolve_ref sv spec p with
              | none => rw [rdeep_ref_exc sv spec n kvs p visited hl hp hr]; rfl
              | some resolved =>
                by_cases ht : truthyJ resolved
                · rw [rdeep_ref_new_truthy sv spec n kvs p visited resolved hl hp hr ht]
                  apply ih (RIn.rnode resolved) (visited ++ [p])
                    (Finset.Subset.trans (resolve_ref_refs hr) hA)
                  -- measure arithmetic
                  have hpA : p ∈ A := hrefs (by simpa [refsRIn', refsJ] using lookupKV_ref_mem hl)
                  have hpV : p ∈ A \ visited.toFinset := by
                    simp [Finset.mem_sdiff, hpA, List.mem_toFinset, hp]
                  obtain ⟨c', hc'⟩ : ∃ c', (A \ visited.toFinset).card = c' + 1 :=
                    ⟨(A \ visited.toFinset).card - 1, by
                      have := Finset.card_pos.mpr ⟨p, hpV⟩
                      omega⟩
                  have hcard : (A \ (visited ++ [p]).toFinset).card = c' := by
                    have e1 : (visited ++ [p]).toFinset = insert p visited.toFinset := by
                      simp [List.toFinset_append, Finset.insert_eq, Finset.union_comm]
                    rw [e1, Finset.sdiff_insert, Finset.card_erase_of_mem hpV, hc']
                    omega
                  rw [hcard]
                  have hsz := resolve_ref_size hr
                  have hmul : (sizeJ spec + 3) * (c' + 1) = (sizeJ spec + 3) * c' + (sizeJ spec + 3) :=
                    by ring
                  simp only [sizeRIn, sizeJ] at hs ⊢
                  rw [hc', hmul] at hs
                  have := sizeEntries_pos kvs
                  omega
                · rw [rdeep_ref_new_falsy sv spec n kvs p visited resolved hl hp hr
                    (by simpa using ht)]
                  rfl
          | null => simp [resolve_refs_recursive, hl]
          | jbool b => simp [resolve_refs_recursive, hl]
          | jnum s => simp [resolve_refs_recursive, hl]
          | jarr xs => simp [resolve_refs_recursive, hl]
          | jobj kvs2 => simp [resolve_refs_recursive, hl]
    | RIn.rentries l =>
      cases l with
      | nil => rw [rdeep_entries_nil]; rfl
      | cons q rest =>
        obtain ⟨k, v⟩ := q
        have hsv := sizeEntries_pos rest
        have hrefsA : refsEntries ((k, v) :: rest) ⊆ A := by simpa [refsRIn'] using hrefs
        have hchild : (resolve_refs_recursive sv spec n (RIn.rnode v) visited).isSome = true := by
          apply ih (RIn.rnode v) visited
            (Finset.Subset.trans (refsEntries_cons_val k v rest) hrefsA)
          simp only [sizeRIn, sizeEntries] at hs ⊢
          omega
        cases hc : resolve_refs_recursive sv spec n (RIn.rnode v) visited with
        | none => rw [hc] at hchild; simp at hchild
        | some r1 =>
          cases r1 with
          | error e => simp [resolve_refs_recursive, hc]
          | ok pr =>
            obtain ⟨v', vis1⟩ := pr
            have hsub := rdeep_visited_mono sv spec n (RIn.rnode v) visited v' vis1 hc
            have hcard := card_sdiff_mono_of_subset (A := A) hsub
            have hrest : (resolve_refs_recursive sv spec n (RIn.rentries rest) vis1).isSome = true := by
              apply ih (RIn.rentries rest) vis1
                (Finset.Subset.trans (refsEntries_cons_rest k v rest) hrefsA)
              have hmul : (sizeJ spec + 3) * (A \ vis1.toFinset).card ≤
                  (sizeJ spec + 3) * (A \ visited.toFinset).card :=
                Nat.mul_le_mul_left _ hcard
              have hv := sizeJ_pos v
              simp only [sizeRIn, sizeEntries] at hs ⊢
              omega
            cases hrr : resolve_refs_recursive sv spec n (RIn.rentries rest) vis1 with
            | none => rw [hrr] at hrest; simp at hrest
            | some r2 =>
              cases r2 with
              | error e => simp [resolve_refs_recursive, hc, hrr]
              | ok pr2 =>
                obtain ⟨rest', vis2⟩ := pr2
                cases rest' <;> simp [resolve_refs_recursive, hc, hrr]
    | RIn.ritems l =>
      cases l with
      | nil => rw [rdeep_items_nil]; rfl
      | cons x rest =>
        have hsv := sizeItems_pos rest
        have hrefsA : refsItems (x :: rest) ⊆ A := by simpa [refsRIn'] using hrefs
        have hchild : (resolve_refs_recursive sv spec n (RIn.rnode x) visited).isSome = true := by
          apply ih (RIn.rnode x) visited
            (Finset.Subset.trans (refsItems_cons_val x rest) hrefsA)
          simp only [sizeRIn, sizeItems] at hs ⊢
          omega
        cases hc : resolve_refs_recursive sv spec n (RIn.rnode x) visited with
        | none => rw [hc] at hchild; simp at hchild
        | some r1 =>
          cases r1 with
          | error e => simp [resolve_refs_recursive, hc]
          | ok pr =>
            obtain ⟨x', vis1⟩ := pr
            have hsub := rdeep_visited_mono sv spec n (RIn.rnode x) visited x' vis1 hc
            have hcard := card_sdiff_mono_of_subset (A := A) hsub
            have hrest : (resolve_refs_recursive sv spec n (RIn.ritems rest) vis1).isSome = true := by
              apply ih (RIn.ritems rest) vis1
                (Finset.Subset.trans (refsItems_cons_rest x rest) hrefsA)
              have hmul : (sizeJ spec + 3) * (A \ vis1.toFinset).card ≤
                  (sizeJ spec + 3) * (A \ visited.toFinset).card :=
                Nat.mul_le_mul_left _ hcard
              have hv := sizeJ_pos x
              simp only [sizeRIn, sizeItems] at hs ⊢
              omega
            cases hrr : resolve_refs_recursive sv spec n (RIn.ritems rest) vis1 with
            | none => rw [hrr] at hrest; simp at hrest
            | some r2 =>
              cases r2 with
              | error e => simp [resolve_refs_recursive, hc, hrr]
              | ok pr2 =>
                obtain ⟨rest', vis2⟩ := pr2
                cases rest' <;> simp [resolve_refs_recursive, hc, hrr]

end Swagger

namespace Swagger

/-- **C4.**  For every spec and document (in particular any spec whose
references form a cycle of length ≥ 1), deep resolution terminates:
sufficient fuel always exists (the Python recursion is thereby total),
and whenever a pointer is re-encountered while in the visited set the
node is replaced by the circular-reference sentinel
`{"$ref": pointer, "_resolved": "circular_reference"}` instead of
recursing. -/
theorem c4_cycle_terminates_with_sentinel :
    (∀ (sv : SpecVersion) (spec obj : J) (visited : List String),
      ∃ n, (resolve_refs_recursive sv spec n (RIn.rnode obj) visited).isSome = true) ∧
    (∀ (sv : SpecVersion) (spec : J) (n : Nat) (kvs : List (String × J)) (p : String)
        (visited : List String),
      lookupKV kvs "$ref" = some (J.jstr p) → p ∈ visited →
      resolve_refs_recursive sv spec (n + 1) (RIn.rnode (J.jobj kvs)) visited =
        some (Except.ok (circular_sentinel p, visited))) := by
  constructor
  · intro sv spec obj visited
    refine ⟨sizeJ obj + (sizeJ spec + 3) *
      (((refsJ spec ∪ refsJ obj) \ visited.toFinset).card), ?_⟩
    exact rdeep_sufficient_fuel sv spec (refsJ spec ∪ refsJ obj)
      Finset.subset_union_left _ (RIn.rnode obj) visited
      (by simp [refsRIn']) le_rfl
  · intro sv spec n kvs p visited hl hp
    exact rdeep_ref_mem sv spec n kvs p visited hl hp

/-- **C4, witness.**  The self-referential spec `specCyc`. -/
theorem c4_cycle_terminates_with_sentinel_witness :
    (∃ n, (resolve_refs_recursive SpecVersion.swagger2 specCyc n
      (RIn.rnode (refNode "#/definitions/A")) []).isSome = true) ∧
    resolve_refs_recursive SpecVersion.swagger2 specCyc 9
      (RIn.rnode (refNode "#/definitions/A")) ["#/definitions/A"] =
      some (Except.ok (circular_sentinel "#/definitions/A", ["#/definitions/A"])) :=
  ⟨c4_cycle_terminates_with_sentinel.1 SpecVersion.swagger2 specCyc
      (refNode "#/definitions/A") [],
   c4_cycle_terminates_with_sentinel.2 SpecVersion.swagger2 specCyc 8
      [("$ref", J.jstr "#/definitions/A")] "#/definitions/A" ["#/definitions/A"]
      rfl (by simp)⟩

end Swagger

namespace Swagger

theorem validate_test_case_props {tc : TestCase} (h : validate_test_case tc = true) :
    truthyJ tc.title = true ∧ tc.test_steps ≠ [] ∧ tc.test_type ≠ "" ∧
    truthyJ tc.api_path = true ∧ tc.http_method ≠ "" := by
  simp only [validate_test_case, Bool.and_eq_true, Bool.not_eq_true',
    List.isEmpty_eq_false, decide_eq_true_eq, ne_eq] at h
  exact ⟨h.1.1.1.1.1, h.1.1.1.1.2, h.1.1.1.2, h.1.1.2, h.1.2⟩

theorem process_mem (ed : Bool) (path method : String) :
    ∀ (cases : List J) (st : GenState) (tc : TestCase),
      tc ∈ (process_generated_cases ed path method cases st).1.test_cases →
      tc ∈ st.test_cases ∨ validate_test_case tc = true := by
  intro cases
  induction cases with
  | nil =>
    intro st tc h
    exact Or.inl h
  | cons cd rest ih =>
    intro st tc h
    cases cd with
    | jobj kvs =>
      simp only [process_generated_cases] at h
      cases hmk : mkTestCase (with_path_method path method (J.jobj kvs)) with
      | none =>
        simp only [hmk] at h
        exact Or.inl h
      | some tc' =>
        simp only [hmk] at h
        by_cases hv : validate_test_case tc' = true
        · rw [if_neg (by simp [hv])] at h
          by_cases hed : ed = true
          · rw [if_neg (by simp [hed])] at h
            cases hk : get_unique_key tc' with
            | none =>
              simp only [hk] at h
              exact Or.inl h
            | some key =>
              simp only [hk] at h
              by_cases hmem : key ∈ st.seen_keys
              · rw [if_pos hmem] at h
                exact ih st tc h
              · rw [if_neg hmem] at h
                rcases ih _ tc h with hin | hval
                · simp only [List.mem_append, List.mem_singleton] at hin
                  rcases hin with hin | rfl
                  · exact Or.inl hin
                  · exact Or.inr hv
                · exact Or.inr hval
          · rw [if_pos hed] at h
            rcases ih _ tc h with hin | hval
            · simp only [List.mem_append, List.mem_singleton] at hin
              rcases hin with hin | rfl
              · exact Or.inl hin
              · exact Or.inr hv
            · exact Or.inr hval
        · rw [if_pos (by simp [hv])] at h
          exact ih st tc h
    | null => exact ih st tc h
    | jbool b => exact ih st tc h
    | jnum s => exact ih st tc h
    | jstr s => exact ih st tc h
    | jarr xs => exact ih st tc h

end Swagger

namespace Swagger

/-- **C1, amended.**  Every record appended to the shared result list
satisfies: at least one step, truthy title and api_path, non-empty
http_method and non-empty test_type — but the test_type is any non-empty
string, not necessarily `Positive`/`Negative` (see the counterexample). -/
theorem c1_resultset_invariant (ed : Bool) (path method : String)
    (cases : List J) (tc : TestCase)
    (h : tc ∈ (process_generated_cases ed path method cases ⟨[], []⟩).1.test_cases) :
    truthyJ tc.title = true ∧ tc.test_steps ≠ [] ∧ tc.test_type ≠ "" ∧
      truthyJ tc.api_path = true ∧ tc.http_method ≠ "" := by
  rcases process_mem ed path method cases ⟨[], []⟩ tc h with hmem | hval
  · simp at hmem
  · exact validate_test_case_props hval

/-- The `TestCase` built from `c1_salvaged`. -/
def c1_tc : TestCase :=
  { title := J.jstr "t", description := J.jstr "", preconditions := J.jstr ""
    test_steps := [(J.jstr "a", J.jstr "Verify the result")]
    test_type := "Unknown", design_technique := "Unknown"
    api_path := J.jstr "/x", http_method := "GET", priority := "Medium" }

/-- **C1, amended witness.** -/
theorem c1_resultset_invariant_witness :
    truthyJ c1_tc.title = true ∧ c1_tc.test_steps ≠ [] ∧ c1_tc.test_type ≠ "" ∧
      truthyJ c1_tc.api_path = true ∧ c1_tc.http_method ≠ "" :=
  c1_resultset_invariant true "/x" "GET" [c1_salvaged] c1_tc (by
    have e : (process_generated_cases true "/x" "GET" [c1_salvaged]
        ⟨[], []⟩).1.test_cases = [c1_tc] := rfl
    rw [e]
    exact List.mem_singleton_self c1_tc)

/-- **C7.**  The same valid record processed twice: with deduplication
disabled it is appended twice; with deduplication enabled the second
occurrence is dropped and it appears exactly once. -/
theorem c7_dedup_toggle (d : J) (path method : String) (tc : TestCase) (k : String)
    (hobj : isObjJ d = true)
    (hmk : mkTestCase (with_path_method path method d) = some tc)
    (hv : validate_test_case tc = true)
    (hk : get_unique_key tc = some k) :
    (process_generated_cases false path method [d, d] ⟨[], []⟩).1.test_cases = [tc, tc] ∧
    (process_generated_cases true path method [d, d] ⟨[], []⟩).1.test_cases = [tc] := by
  obtain ⟨kvs, rfl⟩ : ∃ kvs, d = J.jobj kvs := by
    cases d <;> simp [isObjJ] at hobj
    case jobj kvs => exact ⟨kvs, rfl⟩
  constructor
  · simp only [process_generated_cases, hmk]
    rw [if_neg (by simp [hv]), if_pos (by simp)]
    simp only [process_generated_cases, hmk]
    rw [if_neg (by simp [hv]), if_pos (by simp)]
    rfl
  · simp only [process_generated_cases, hmk, hk]
    rw [if_neg (by simp [hv]), if_neg (by simp)]
    rw [if_neg (by simp : ¬ (k ∈ ([] : List String)))]
    simp only [process_generated_cases, hmk, hk]
    rw [if_neg (by simp [hv]), if_neg (by simp)]
    rw [if_pos (by simp : k ∈ ([] : List String) ++ [k])]
    rfl

end Swagger

namespace Swagger

/-- The `TestCase` built from `salvagedA`. -/
def c7_tc : TestCase :=
  { title := J.jstr "A", description := J.jstr "", preconditions := J.jstr ""
    test_steps := [(J.jstr "a", J.jstr "b")]
    test_type := "Positive", design_technique := "Unknown"
    api_path := J.jstr "/x", http_method := "GET", priority := "Medium" }

/-- **C7, witness.** -/
theorem c7_dedup_toggle_witness :
    (process_generated_cases false "/x" "GET" [salvagedA, salvagedA]
      ⟨[], []⟩).1.test_cases = [c7_tc, c7_tc] ∧
    (process_generated_cases true "/x" "GET" [salvagedA, salvagedA]
      ⟨[], []⟩).1.test_cases = [c7_tc] :=
  c7_dedup_toggle salvagedA "/x" "GET" c7_tc "/x|GET|Positive|Unknown|A|a|b"
    rfl rfl rfl rfl

end Swagger

namespace Swagger

/-- **C5.**  The deduplication key is built solely from api_path,
http_method, test_type, design_technique and the first 100 characters of
the title and of the first step's action/expected-result; it does not
read the description.  Two records equal on those seven components but
with different descriptions receive the same key, and with
deduplication enabled they collapse to a single ResultSet entry. -/
theorem c5_dedup_key_ignores_description
    (d1 d2 : J) (path method : String) (tc1 tc2 : TestCase)
    (t1 t2 ap a1 a2 r1 r2 : String)
    (st1 st2 : J × J) (rest1 rest2 : List (J × J))
    (hobj1 : isObjJ d1 = true) (hobj2 : isObjJ d2 = true)
    (hmk1 : mkTestCase (with_path_method path method d1) = some tc1)
    (hmk2 : mkTestCase (with_path_method path method d2) = some tc2)
    (hv1 : validate_test_case tc1 = true) (hv2 : validate_test_case tc2 = true)
    (_hdesc : tc1.description ≠ tc2.description)
    (hapS : asStr tc1.api_path = some ap) (hap : tc1.api_path = tc2.api_path)
    (hhm : tc1.http_method = tc2.http_method)
    (htt : tc1.test_type = tc2.test_type)
    (hdt : tc1.design_technique = tc2.design_technique)
    (hsteps1 : tc1.test_steps = st1 :: rest1) (hsteps2 : tc2.test_steps = st2 :: rest2)
    (htitle1 : asStr tc1.title = some t1) (htitle2 : asStr tc2.title = some t2)
    (hti : pyTake t1 100 = pyTake t2 100)
    (ha1 : asStr st1.1 = some a1) (ha2 : asStr st2.1 = some a2)
    (haeq : pyTake a1 100 = pyTake a2 100)
    (hr1 : asStr st1.2 = some r1) (hr2 : asStr st2.2 = some r2)
    (hreq : pyTake r1 100 = pyTake r2 100) :
    get_unique_key tc1 = get_unique_key tc2 ∧
    (process_generated_cases true path method [d1, d2] ⟨[], []⟩).1.test_cases = [tc1] := by
  have hk1 : get_unique_key tc1 = some (String.intercalate "|"
      [ap, tc1.http_method, tc1.test_type, tc1.design_technique,
       pyStrip (pyTake t1 100), pyStrip (pyTake a1 100), pyStrip (pyTake r1 100)]) := by
    unfold get_unique_key
    rw [hsteps1]
    simp [ha1, hr1, htitle1, hapS, Option.bind]
  have hk2 : get_unique_key tc2 = some (String.intercalate "|"
      [ap, tc2.http_method, tc2.test_type, tc2.design_technique,
       pyStrip (pyTake t2 100), pyStrip (pyTake a2 100), pyStrip (pyTake r2 100)]) := by
    unfold get_unique_key
    rw [hsteps2]
    simp [ha2, hr2, htitle2, ← hap, hapS, Option.bind]
  have hkeq : get_unique_key tc1 = get_unique_key tc2 := by
    rw [hk1, hk2, hhm, htt, hdt, hti, haeq, hreq]
  refine ⟨hkeq, ?_⟩
  obtain ⟨kvs1, rfl⟩ : ∃ kvs, d1 = J.jobj kvs := by
    cases d1 <;> simp [isObjJ] at hobj1
    case jobj kvs => exact ⟨kvs, rfl⟩
  obtain ⟨kvs2, rfl⟩ : ∃ kvs, d2 = J.jobj kvs := by
    cases d2 <;> simp [isObjJ] at hobj2
    case jobj kvs => exact ⟨kvs, rfl⟩
  have hk2' := hk1
  rw [hkeq] at hk2'
  simp only [process_generated_cases, hmk1, hk1]
  rw [if_neg (by simp [hv1]), if_neg (by simp)]
  rw [if_neg (by simp : ¬ (String.intercalate "|"
      [ap, tc1.http_method, tc1.test_type, tc1.design_technique,
       pyStrip (pyTake t1 100), pyStrip (pyTake a1 100), pyStrip (pyTake r1 100)]
      ∈ ([] : List String)))]
  simp only [process_generated_cases, hmk2, hk2']
  rw [if_neg (by simp [hv2]), if_neg (by simp)]
  rw [if_pos (by simp)]
  rfl

end Swagger

namespace Swagger

/-- `salvagedA` with a different description text. -/
def c5_d2 : J := J.jobj
  [("title", J.jstr "A"), ("description", J.jstr "another wording"),
   ("preconditions", J.jstr ""), ("test_type", J.jstr "Positive"),
   ("design_technique", J.jstr "Unknown"), ("api_path", J.jstr "/x"),
   ("http_method", J.jstr "GET"), ("priority", J.jstr "Medium"),
   ("test_steps", J.jarr [J.jobj [("action", J.jstr "a"), ("expected_result", J.jstr "b")]])]

def c5_tc2 : TestCase :=
  { title := J.jstr "A", description := J.jstr "another wording", preconditions := J.jstr ""
    test_steps := [(J.jstr "a", J.jstr "b")]
    test_type := "Positive", design_technique := "Unknown"
    api_path := J.jstr "/x", http_method := "GET", priority := "Medium" }

/-- **C5, witness.** -/
theorem c5_dedup_key_ignores_description_witness :
    get_unique_key c7_tc = get_unique_key c5_tc2 ∧
    (process_generated_cases true "/x" "GET" [salvagedA, c5_d2]
      ⟨[], []⟩).1.test_cases = [c7_tc] :=
  c5_dedup_key_ignores_description salvagedA c5_d2 "/x" "GET" c7_tc c5_tc2
    "A" "A" "/x" "a" "a" "b" "b"
    (J.jstr "a", J.jstr "b") (J.jstr "a", J.jstr "b") [] []
    rfl rfl rfl rfl rfl rfl (by simp [c7_tc, c5_tc2])
    rfl rfl rfl rfl rfl rfl rfl rfl rfl rfl rfl rfl rfl rfl rfl rfl

end Swagger

namespace Swagger

/-- Field access on a result dict. -/
def lookupJ : J → String → Option J
  | J.jobj kvs, k => lookupKV kvs k
  | _, _ => none

theorem pyTruthyGet_eq (skvs : List (String × J)) (k : String) :
    truthyJ (pyGetKV skvs k J.null) = pyTruthyGet skvs k := by
  unfold pyGetKV pyTruthyGet
  cases lookupKV skvs k <;> simp [truthyJ]

theorem pyGetKV_none {kvs : List (String × J)} {k : String} (dflt : J)
    (h : lookupKV kvs k = none) : pyGetKV kvs k dflt = dflt := by
  unfold pyGetKV
  rw [h]

theorem pyGetKV_some {kvs : List (String × J)} {k : String} {v : J} (dflt : J)
    (h : lookupKV kvs k = some v) : pyGetKV kvs k dflt = v := by
  unfold pyGetKV
  rw [h]

/-- The salvage result dict when its guards pass. -/
def salvage_result (kvs : List (String × J)) (valid_steps : List J) : J :=
  J.jobj
    [("title", pyGetKV kvs "title" (J.jstr "Untitled")),
     ("description", pyGetKV kvs "description" (J.jstr "")),
     ("preconditions", pyGetKV kvs "preconditions" (J.jstr "")),
     ("test_type", pyGetKV kvs "test_type" (J.jstr "Unknown")),
     ("design_technique", pyGetKV kvs "design_technique" (J.jstr "Unknown")),
     ("api_path", pyGetKV kvs "api_path" (J.jstr "")),
     ("http_method", pyGetKV kvs "http_method" (J.jstr "")),
     ("priority", pyGetKV kvs "priority" (J.jstr "Medium")),
     ("test_steps", J.jarr valid_steps)]

theorem salvage_case_eq (kvs : List (String × J)) (steps : List J)
    (hcond : (pyTruthyGet kvs "title" && pyTruthyGet kvs "test_steps") = true)
    (hget : pyGetKV kvs "test_steps" (J.jarr []) = J.jarr steps) :
    salvage_case kvs =
      (if steps.isEmpty then none
       else if (steps.filterMap salvage_step).isEmpty then none
       else some (salvage_result kvs (steps.filterMap salvage_step))) := by
  unfold salvage_case
  rw [if_neg (by simp [hcond]), hget]
  rfl

end Swagger

namespace Swagger

theorem salvage_step_isSome {st : J} (h : (salvage_step st).isSome = true) :
    ∃ skvs, st = J.jobj skvs ∧ pyTruthyGet skvs "action" = true := by
  cases st with
  | jobj skvs =>
    refine ⟨skvs, rfl, ?_⟩
    by_cases hact : truthyJ (pyGetKV skvs "action" J.null) = true
    · rw [← pyTruthyGet_eq]
      exact hact
    · simp [salvage_step, hact] at h
  | null => simp [salvage_step] at h
  | jbool b => simp [salvage_step] at h
  | jnum s => simp [salvage_step] at h
  | jstr s => simp [salvage_step] at h
  | jarr xs => simp [salvage_step] at h

theorem salvage_case_none_of_nonlist (kvs : List (String × J)) (v : J)
    (hcond : (pyTruthyGet kvs "title" && pyTruthyGet kvs "test_steps") = true)
    (hget : pyGetKV kvs "test_steps" (J.jarr []) = v)
    (hv : (match v with | J.jarr _ => False | _ => True)) :
    salvage_case kvs = none := by
  unfold salvage_case
  rw [if_neg (by simp [hcond]), hget]
  cases v <;> simp_all

/-- **C6.**  Salvage succeeds exactly when the candidate has a truthy
title and a non-empty `test_steps` list containing at least one dict
step with a truthy action; on success, a kept step missing its
`expected_result` key receives the generic placeholder text, and the
optional fields absent from the candidate are filled with the neutral
defaults (empty description/preconditions, priority `Medium`, test_type
and design_technique `Unknown`). -/
theorem c6_salvage_characterization (kvs : List (String × J))
    (_hstrict : TestCaseSchemaValidate (J.jobj kvs) = none) :
    ((salvage_case kvs).isSome = true ↔
      (pyTruthyGet kvs "title" = true ∧
       ∃ steps, lookupKV kvs "test_steps" = some (J.jarr steps) ∧ steps ≠ [] ∧
         ∃ st ∈ steps, ∃ skvs, st = J.jobj skvs ∧ pyTruthyGet skvs "action" = true)) ∧
    (∀ r, salvage_case kvs = some r →
      ((lookupKV kvs "description" = none → lookupJ r "description" = some (J.jstr "")) ∧
       (lookupKV kvs "preconditions" = none → lookupJ r "preconditions" = some (J.jstr "")) ∧
       (lookupKV kvs "priority" = none → lookupJ r "priority" = some (J.jstr "Medium")) ∧
       (lookupKV kvs "test_type" = none → lookupJ r "test_type" = some (J.jstr "Unknown")) ∧
       (lookupKV kvs "design_technique" = none →
         lookupJ r "design_technique" = some (J.jstr "Unknown")) ∧
       (∀ steps st skvs, lookupKV kvs "test_steps" = some (J.jarr steps) → st ∈ steps →
          st = J.jobj skvs → pyTruthyGet skvs "action" = true →
          lookupKV skvs "expected_result" = none →
          ∃ out, lookupJ r "test_steps" = some (J.jarr out) ∧
            J.jobj [("action", pyGetKV skvs "action" (J.jstr "")),
                    ("expected_result", J.jstr "Verify the result")] ∈ out))) := by
  constructor
  · by_cases hcond : (pyTruthyGet kvs "title" && pyTruthyGet kvs "test_steps") = true
    · have htitle : pyTruthyGet kvs "title" = true :=
        ((Bool.and_eq_true _ _).mp hcond).1
      have hsteps : pyTruthyGet kvs "test_steps" = true :=
        ((Bool.and_eq_true _ _).mp hcond).2
      cases hlu : lookupKV kvs "test_steps" with
      | none => simp [pyTruthyGet, hlu] at hsteps
      | some v =>
        have hget : pyGetKV kvs "test_steps" (J.jarr []) = v := pyGetKV_some _ hlu
        cases v with
        | jarr steps =>
          have hne : steps ≠ [] := by
            simp only [pyTruthyGet, hlu, truthyJ] at hsteps
            simpa [List.isEmpty_iff] using hsteps
          rw [salvage_case_eq kvs steps hcond hget,
            if_neg (by simp [List.isEmpty_iff, hne])]
          by_cases hvs : steps.filterMap salvage_step = []
          · rw [if_pos (by simp [List.isEmpty_iff, hvs])]
            simp only [Option.isSome_none, Bool.false_eq_true, false_iff]
            rintro ⟨-, steps', hlu', -, st, hmem, skvs, rfl, hact⟩
            have hse : steps' = steps := by simpa using hlu'.symm
            subst hse
            rw [List.filterMap_eq_nil_iff] at hvs
            have hnone := hvs _ hmem
            rw [← pyTruthyGet_eq] at hact
            simp [salvage_step, hact] at hnone
          · rw [if_neg (by simp [List.isEmpty_iff, hvs])]
            simp only [Option.isSome_some, true_iff]
            refine ⟨htitle, steps, rfl, hne, ?_⟩
            obtain ⟨st, hmem, hsome⟩ : ∃ st ∈ steps, (salvage_step st).isSome = true := by
              by_contra hc
              push_neg at hc
              apply hvs
              rw [List.filterMap_eq_nil_iff]
              intro a ha
              have := hc a ha
              simpa [Option.not_isSome_iff_eq_none] using this
            obtain ⟨skvs, rfl, hact⟩ := salvage_step_isSome hsome
            exact ⟨J.jobj skvs, hmem, skvs, rfl, hact⟩
        | null =>
          rw [salvage_case_none_of_nonlist kvs _ hcond hget trivial]
          simp only [Option.isSome_none, Bool.false_eq_true, false_iff]
          rintro ⟨-, steps', hlu', -, -⟩
          simp at hlu'
        | jbool b =>
          rw [salvage_case_none_of_nonlist kvs _ hcond hget trivial]
          simp only [Option.isSome_none, Bool.false_eq_true, false_iff]
          rintro ⟨-, steps', hlu', -, -⟩
          simp at hlu'
        | jnum s =>
          rw [salvage_case_none_of_nonlist kvs _ hcond hget trivial]
          simp only [Option.isSome_none, Bool.false_eq_true, false_iff]
          rintro ⟨-, steps', hlu', -, -⟩
          simp at hlu'
        | jstr s =>
          rw [salvage_case_none_of_nonlist kvs _ hcond hget trivial]
          simp only [Option.isSome_none, Bool.false_eq_true, false_iff]
          rintro ⟨-, steps', hlu', -, -⟩
          simp at hlu'
        | jobj kvs2 =>
          rw [salvage_case_none_of_nonlist kvs _ hcond hget trivial]
          simp only [Option.isSome_none, Bool.false_eq_true, false_iff]
          rintro ⟨-, steps', hlu', -, -⟩
          simp at hlu'
    · have hnone : salvage_case kvs = none := by
        unfold salvage_case
        rw [if_pos (by simp [hcond])]
      rw [hnone]
      simp only [Option.isSome_none, Bool.false_eq_true, false_iff]
      rintro ⟨htitle, steps, hlu, hne, -⟩
      apply hcond
      simp only [Bool.and_eq_true]
      refine ⟨htitle, ?_⟩
      simp [pyTruthyGet, hlu, truthyJ, List.isEmpty_iff, hne]
  · intro r hr
    by_cases hcond : (pyTruthyGet kvs "title" && pyTruthyGet kvs "test_steps") = true
    · cases hlu : lookupKV kvs "test_steps" with
      | none =>
        have hsteps : pyTruthyGet kvs "test_steps" = true :=
          ((Bool.and_eq_true _ _).mp hcond).2
        simp [pyTruthyGet, hlu] at hsteps
      | some v =>
        have hget : pyGetKV kvs "test_steps" (J.jarr []) = v := pyGetKV_some _ hlu
        cases v with
        | jarr steps =>
          rw [salvage_case_eq kvs steps hcond hget] at hr
          split_ifs at hr with h1 h2
          injection hr with hr
          subst hr
          refine ⟨?_, ?_, ?_, ?_, ?_, ?_⟩
          · intro hd; simp [salvage_result, lookupJ, lookupKV, pyGetKV_none _ hd]
          · intro hd; simp [salvage_result, lookupJ, lookupKV, pyGetKV_none _ hd]
          · intro hd; simp [salvage_result, lookupJ, lookupKV, pyGetKV_none _ hd]
          · intro hd; simp [salvage_result, lookupJ, lookupKV, pyGetKV_none _ hd]
          · intro hd; simp [salvage_result, lookupJ, lookupKV, pyGetKV_none _ hd]
          · intro steps' st skvs hlu' hmem hst hact hmiss
            have hse : steps' = steps := by simpa using hlu'.symm
            refine ⟨_, rfl, ?_⟩
            rw [List.mem_filterMap]
            refine ⟨st, hse ▸ hmem, ?_⟩
            subst hst
            rw [← pyTruthyGet_eq] at hact
            simp [salvage_step, hact, pyGetKV_none _ hmiss]
        | null => rw [salvage_case_none_of_nonlist kvs _ hcond hget trivial] at hr; cases hr
        | jbool b => rw [salvage_case_none_of_nonlist kvs _ hcond hget trivial] at hr; cases hr
        | jnum s => rw [salvage_case_none_of_nonlist kvs _ hcond hget trivial] at hr; cases hr
        | jstr s => rw [salvage_case_none_of_nonlist kvs _ hcond hget trivial] at hr; cases hr
        | jobj kvs2 => rw [salvage_case_none_of_nonlist kvs _ hcond hget trivial] at hr; cases hr
    · unfold salvage_case at hr
      rw [if_pos (by simp [hcond])] at hr
      cases hr

end Swagger

namespace Swagger

/-- The entries of the record recovered from `c1_input` before salvage. -/
def c6_kvs : List (String × J) :=
  [("title", J.jstr "t"),
   ("test_steps", J.jarr [J.jobj [("action", J.jstr "a")]]),
   ("test_type", J.jstr "Unknown"),
   ("api_path", J.jstr "/x"),
   ("http_method", J.jstr "GET")]

/-- **C6, witness.**  `c6_kvs` fails strict validation yet salvages. -/
theorem c6_salvage_characterization_witness :
    (salvage_case c6_kvs).isSome = true :=
  (c6_salvage_characterization c6_kvs rfl).1.mpr
    ⟨rfl, [J.jobj [("action", J.jstr "a")]], rfl, by simp,
     J.jobj [("action", J.jstr "a")], by simp, [("action", J.jstr "a")], rfl, rfl⟩

end Swagger

namespace Swagger

theorem TestCaseSchemaValidate_obj : ∀ {c v : J},
    TestCaseSchemaValidate c = some v → isObjJ v = true := by
  intro c v h
  cases c with
  | jobj kvs =>
    simp only [TestCaseSchemaValidate, bind, Option.bind_eq_some] at h
    repeat obtain ⟨_, -, h⟩ := h
    cases hl : lookupKV kvs "test_steps" with
    | none =>
      rw [hl] at h
      simp at h
    | some v2 =>
      rw [hl] at h
      cases v2 with
      | jarr l =>
        simp only [Option.some_bind, Option.bind_eq_some] at h
        repeat obtain ⟨_, -, h⟩ := h
        try cases h
        rfl
      | null => simp at h
      | jbool b => simp at h
      | jnum s2 => simp at h
      | jstr s2 => simp at h
      | jobj kvs2 => simp at h
  | null => simp [TestCaseSchemaValidate] at h
  | jbool b => simp [TestCaseSchemaValidate] at h
  | jnum s => simp [TestCaseSchemaValidate] at h
  | jstr s => simp [TestCaseSchemaValidate] at h
  | jarr xs => simp [TestCaseSchemaValidate] at h

theorem salvage_case_obj {kvs : List (String × J)} {r : J}
    (h : salvage_case kvs = some r) : isObjJ r = true := by
  unfold salvage_case at h
  split at h
  · cases h
  · cases hm : pyGetKV kvs "test_steps" (J.jarr []) with
    | jarr steps =>
      simp only [hm] at h
      split_ifs at h with h1 h2
      cases h
      rfl
    | null => simp only [hm] at h; cases h
    | jbool b => simp only [hm] at h; cases h
    | jnum s => simp only [hm] at h; cases h
    | jstr s => simp only [hm] at h; cases h
    | jobj kvs2 => simp only [hm] at h; cases h

theorem validate_cases_objs : ∀ (cases : List J) (x : J),
    x ∈ validate_cases cases → isObjJ x = true := by
  intro cases
  induction cases with
  | nil => intro x h; simp [validate_cases] at h
  | cons c rest ih =>
    intro x h
    cases c with
    | jobj kvs =>
      simp only [validate_cases] at h
      cases hs : TestCaseSchemaValidate (J.jobj kvs) with
      | some v =>
        simp only [hs] at h
        rcases List.mem_cons.mp h with rfl | hmem
        · exact TestCaseSchemaValidate_obj hs
        · exact ih x hmem
      | none =>
        simp only [hs] at h
        by_cases hlike : is_test_case_like kvs = true
        · rw [if_pos hlike] at h
          cases hsal : salvage_case kvs with
          | some srec =>
            simp only [hsal] at h
            rcases List.mem_cons.mp h with rfl | hmem
            · exact salvage_case_obj hsal
            · exact ih x hmem
          | none =>
            simp only [hsal] at h
            exact ih x h
        · rw [if_neg hlike] at h
          exact ih x h
    | null => exact ih x h
    | jbool b => exact ih x h
    | jnum s => exact ih x h
    | jstr s => exact ih x h
    | jarr xs => exact ih x h

theorem normalize_response_objs (raw : J) :
    ∀ x ∈ normalize_response raw, isObjJ x = true := by
  intro x h
  cases raw with
  | jobj kvs =>
    simp only [normalize_response] at h
    cases hw : findWrapper wrapper_keys kvs with
    | some l =>
      simp only [hw] at h
      exact validate_cases_objs l x h
    | none =>
      simp only [hw] at h
      by_cases hlike : is_test_case_like kvs = true
      · rw [if_pos hlike] at h
        exact validate_cases_objs _ x h
      · rw [if_neg hlike] at h
        simp at h
  | jarr l =>
    simp only [normalize_response] at h
    exact validate_cases_objs l x h
  | null => simp [normalize_response] at h
  | jbool b => simp [normalize_response] at h
  | jnum s => simp [normalize_response] at h
  | jstr s => simp [normalize_response] at h

theorem skipWs_lbrace (t : List Char) : skipWs (lbrace :: t) = lbrace :: t := by
  simp [skipWs, show isJsonWs lbrace = false from by decide]

theorem parseJ_lbrace_obj {n : Nat} {t : List Char} {v : J} {r : List Char}
    (h : parseJ n PTask.pval (lbrace :: t) = some (v, r)) : isObjJ v = true := by
  cases n with
  | zero => simp [parseJ] at h
  | succ n =>
    have e : parseJ (n + 1) PTask.pval (lbrace :: t) =
        (match skipWs t with
         | c2 :: r2 =>
           if c2 = rbrace then some (J.jobj [], r2)
           else
             match parseJ n PTask.pmembers (c2 :: r2) with
             | some (J.jobj kvs, rest) => some (J.jobj (dictOf kvs), rest)
             | _ => none
         | [] => none) := rfl
    rw [e] at h
    cases hs : skipWs t with
    | nil => simp only [hs] at h; cases h
    | cons c2 r2 =>
      simp only [hs] at h
      by_cases hc2 : c2 = rbrace
      · rw [if_pos hc2] at h
        cases h
        rfl
      · rw [if_neg hc2] at h
        cases hp : parseJ n PTask.pmembers (c2 :: r2) with
        | none => simp only [hp] at h; cases h
        | some pr =>
          obtain ⟨pv, rest⟩ := pr
          simp only [hp] at h
          cases pv with
          | jobj kvs =>
            cases h
            rfl
          | null => cases h
          | jbool b => cases h
          | jnum s => cases h
          | jstr s => cases h
          | jarr xs => cases h

theorem jsonLoadsL_lbrace_obj {t : List Char} {v : J}
    (h : jsonLoadsL (lbrace :: t) = some v) : isObjJ v = true := by
  unfold jsonLoadsL at h
  cases hp : parseJ (2 * (lbrace :: t).length + 8) PTask.pval (lbrace :: t) with
  | none => simp only [hp] at h; cases h
  | some pr =>
    obtain ⟨v', r⟩ := pr
    simp only [hp] at h
    by_cases he : (skipWs r).isEmpty = true
    · rw [if_pos he] at h
      cases h
      exact parseJ_lbrace_obj hp
    · rw [if_neg he] at h
      cases h

end Swagger

namespace Swagger

theorem extract_go_ok : ∀ (cs : List Char) (instr esc : Bool) (depth : Int)
    (buf : Option (List Char)) (acc : List J),
    (∀ b, buf = some b → ∃ t2, b = lbrace :: t2) →
    (∀ x ∈ acc, isObjJ x = true) →
    ∃ l, extract_go cs instr esc depth buf acc = some l ∧ ∀ x ∈ l, isObjJ x = true := by
  intro cs
  induction cs with
  | nil =>
    intro instr esc depth buf acc _ hacc
    exact ⟨acc, rfl, hacc⟩
  | cons c rest ih =>
    intro instr esc depth buf acc hbuf hacc
    have hbuf1 : ∀ b, Option.map (· ++ [c]) buf = some b → ∃ t2, b = lbrace :: t2 := by
      intro b hb
      cases buf with
      | none => simp at hb
      | some b0 =>
        obtain ⟨t0, rfl⟩ := hbuf b0 rfl
        injection hb with hb
        exact ⟨t0 ++ [c], hb.symm⟩
    simp only [extract_go]
    by_cases h1 : esc = true
    · rw [if_pos h1]
      exact ih instr false depth _ acc hbuf1 hacc
    · rw [if_neg h1]
      by_cases h2 : c = bslash
      · rw [if_pos h2]
        exact ih instr true depth _ acc hbuf1 hacc
      · rw [if_neg h2]
        by_cases h3 : c = dquote
        · rw [if_pos h3]
          exact ih (!instr) false depth _ acc hbuf1 hacc
        · rw [if_neg h3]
          by_cases h4 : instr = true
          · rw [if_pos h4]
            exact ih true false depth _ acc hbuf1 hacc
          · rw [if_neg h4]
            by_cases h5 : c = lbrace
            · rw [if_pos h5]
              by_cases h5d : depth = 0
              · rw [if_pos h5d]
                exact ih false false (depth + 1) _ acc
                  (by intro b hb; cases hb; exact ⟨[], rfl⟩) hacc
              · rw [if_neg h5d]
                exact ih false false (depth + 1) _ acc hbuf1 hacc
            · rw [if_neg h5]
              by_cases h6 : c = rbrace
              · rw [if_pos h6]
                by_cases h6d : depth - 1 = 0
                · rw [if_pos h6d]
                  cases buf with
                  | none =>
                    exact ih false false (depth - 1) none acc (by intro b hb; cases hb) hacc
                  | some b0 =>
                    obtain ⟨t0, rfl⟩ := hbuf b0 rfl
                    have hb' : (lbrace :: t0) ++ [c] = lbrace :: (t0 ++ [c]) := rfl
                    simp only [Option.map_some', hb']
                    cases hjl : jsonLoadsL (lbrace :: (t0 ++ [c])) with
                    | none =>
                      simp only [hjl]
                      exact ih false false (depth - 1) none acc (by intro b hb; cases hb) hacc
                    | some obj =>
                      simp only [hjl]
                      have hobj := jsonLoadsL_lbrace_obj hjl
                      cases obj with
                      | jobj okvs =>
                        show ∃ l, extract_go rest false false (depth - 1) none
                          (if is_test_case_like okvs then acc ++ [J.jobj okvs] else acc) =
                            some l ∧ _
                        by_cases hpass : is_test_case_like okvs = true
                        · rw [if_pos hpass]
                          refine ih false false (depth - 1) none (acc ++ [J.jobj okvs])
                            (by intro b hb; cases hb) ?_
                          intro x hx
                          rcases List.mem_append.mp hx with hx | hx
                          · exact hacc x hx
                          · rw [List.mem_singleton.mp hx]
                            rfl
                        · rw [if_neg hpass]
                          exact ih false false (depth - 1) none acc
                            (by intro b hb; cases hb) hacc
                      | null => cases hobj
                      | jbool b => cases hobj
                      | jnum s => cases hobj
                      | jstr s => cases hobj
                      | jarr xs => cases hobj
                · rw [if_neg h6d]
                  exact ih false false (depth - 1) _ acc hbuf1 hacc
              · rw [if_neg h6]
                exact ih instr false depth _ acc hbuf1 hacc

end Swagger

namespace Swagger

/-- C10: for every input string (including the empty string and arbitrary
non-JSON text) the response recovery pipeline is total: it returns a list
(possibly empty) and every element of that list is a dictionary. -/
theorem c10_parse_total (s : String) :
    ∃ l, parse_llm_response s = some l ∧ ∀ x ∈ l, isObjJ x = true := by
  unfold parse_llm_response
  by_cases he : s.data.isEmpty
  · rw [if_pos he]
    exact ⟨[], rfl, by intro x h; cases h⟩
  · rw [if_neg he]
    cases h1 : try_direct_parse s with
    | some raw =>
      simp only [h1]
      exact ⟨normalize_response raw, rfl, normalize_response_objs raw⟩
    | none =>
      simp only [h1]
      cases h2 : try_extract_code_block s with
      | some raw =>
        simp only [h2]
        exact ⟨normalize_response raw, rfl, normalize_response_objs raw⟩
      | none =>
        simp only [h2]
        cases h3 : try_extract_array s with
        | some raw =>
          simp only [h3]
          exact ⟨normalize_response raw, rfl, normalize_response_objs raw⟩
        | none =>
          simp only [h3]
          obtain ⟨l5, hl5, hobj5⟩ := extract_go_ok s.data false false 0 none []
            (by intro b hb; cases hb) (by intro x h; cases h)
          have hec : extract_complete_objects s = some l5 := hl5
          cases h4 : try_repair_json s with
          | some raw =>
            simp only [h4]
            by_cases hne : (normalize_response raw).isEmpty = true
            · rw [if_neg (not_not_intro hne)]
              exact ⟨l5, hec, hobj5⟩
            · rw [if_pos hne]
              exact ⟨normalize_response raw, rfl, normalize_response_objs raw⟩
          | none =>
            simp only [h4]
            exact ⟨l5, hec, hobj5⟩

theorem c10_parse_total_witness :
    ∃ l, parse_llm_response c1_input = some l ∧ ∀ x ∈ l, isObjJ x = true :=
  c10_parse_total c1_input

end Swagger
